import Mathlib

/-!
# Verification of the charging-rally ledger pipeline

A shallow embedding of `scripts/update-ledger.mjs`: the month-key helpers,
the tariff-row selection, the per-month cost calculation, the retrying
fetch layer, the three-strategy Jämtkraft price extraction, the Easee usage
client and the reconciling `main` orchestration, with theorems settling the
spec's claims about them.

Modelling conventions:
* JS numbers are modelled as `ℚ` (the pipeline only ever produces finite
  decimal values; `NaN`/`Infinity` outcomes are modelled as `none` where the
  code tests `Number.isFinite`).
* JS strings are Lean `String`s; `localeCompare` on the ASCII month keys this
  program compares is code-point lexicographic order, modelled by `strLe`.
* I/O (network, filesystem, clock) is passed in as explicit arguments: each
  network call site takes the response (or the thrown transport error) it
  would have observed, and `main` takes the prior ledger, the current date and
  the run timestamp.
-/

/-! ## String primitives -/

/-- Code-point lexicographic order on character lists: the order
`String.prototype.localeCompare` induces on the ASCII month keys and tariff
`effectiveFrom` keys this program compares. -/
def charListLe : List Char → List Char → Bool
  | [], _ => true
  | _ :: _, [] => false
  | a :: as, b :: bs => if a < b then true else if b < a then false else charListLe as bs

/-- `a ≤ b` as JS `a.localeCompare(b) <= 0` on ASCII keys. -/
def strLe (a b : String) : Bool := charListLe a.data b.data

/-- JS `hay.includes(needle)` on character lists. -/
def listContainsSub (needle : List Char) : List Char → Bool
  | [] => needle.isEmpty
  | c :: cs => needle.isPrefixOf (c :: cs) || listContainsSub needle cs

/-- JS `hay.includes(needle)`. -/
def strContainsSub (hay needle : String) : Bool := listContainsSub needle.data hay.data

/-- JS `\s` character class (the whitespace this page can contain). -/
def isJsSpace (c : Char) : Bool := c = ' ' || c = '\t' || c = '\n' || c = '\r'

/-- `.replace(/\s+/g, " ")` on a character list: collapse every whitespace run
to a single space. -/
def collapseRuns : List Char → List Char
  | [] => []
  | c :: cs =>
    if isJsSpace c then
      match collapseRuns cs with
      | ' ' :: rest => ' ' :: rest
      | rest => ' ' :: rest
    else c :: collapseRuns cs

/-- JS `.trim()`: strip leading and trailing whitespace. -/
def trimChars (cs : List Char) : List Char :=
  ((cs.dropWhile isJsSpace).reverse.dropWhile isJsSpace).reverse

/-- JS `s.replace(/\s+/g, " ").trim()`, the caption/body-text normalization. -/
def collapseWs (s : String) : String := String.mk (trimChars (collapseRuns s.data))

/-- JS `s.trim()`. -/
def jsTrim (s : String) : String := String.mk (trimChars s.data)

/-- JS `s.replace(/\s/g, "")`: strip all whitespace. -/
def stripAllWs (s : String) : String := String.mk (s.data.filter (fun c => !isJsSpace c))

/-- JS `s.replace(",", ".")`: replace only the **first** comma. -/
def replaceFirstComma : List Char → List Char
  | [] => []
  | c :: cs => if c = ',' then '.' :: cs else c :: replaceFirstComma cs

/-- The numeric-cell cleanup `String(x).replace(",", ".").replace(/\s/g, "")`. -/
def cleanNumeric (s : String) : String :=
  String.mk ((replaceFirstComma s.data).filter (fun c => !isJsSpace c))

/-- JS `s.toLowerCase()` restricted to ASCII (all the needles searched for are
ASCII). -/
def lowerStr (s : String) : String := String.mk (s.data.map Char.toLower)

/-- JS `s.slice(0, 3)`. -/
def take3 (s : String) : String := String.mk (s.data.take 3)

/-- JS `s.endsWith(t)`. -/
def strEndsWith (s t : String) : Bool := t.data.reverse.isPrefixOf s.data.reverse

/-- JS `s.split("-")`. -/
def splitDash : List Char → List (List Char)
  | [] => [[]]
  | c :: cs =>
    if c = '-' then [] :: splitDash cs
    else
      match splitDash cs with
      | [] => [[c]]
      | p :: ps => (c :: p) :: ps

/-- JS `String(n).padStart(2, "0")`. -/
def padStart2 (s : String) : String :=
  String.mk (List.replicate (2 - s.data.length) '0' ++ s.data)

/-! ## JS `Number(...)` on the cleaned strings this pipeline feeds it

The pipeline only ever passes `Number` strings that are either plain decimal
literals (optionally signed, comma already replaced by a dot, whitespace
already stripped) or garbage. The model below parses exactly the plain
decimal fragment; every other input — including JS inputs that would parse to
a non-finite value (`"Infinity"`) or to an exotic literal form the page never
uses (hex, exponent notation) — is mapped to `none`, which is also how the
code treats a non-finite parse (`Number.isFinite` guard). `Number("") = 0`,
faithfully. -/

/-- Numeric value of a digit list (base 10, leading zeros welcome). -/
def digitsVal (cs : List Char) : Nat :=
  cs.foldl (fun a c => 10 * a + (c.toNat - '0'.toNat)) 0

/-- Model of `Number(s)` followed by the code's `Number.isFinite` test:
`some` the finite value, `none` for `NaN`/non-finite. -/
def parseNumberChars (cs : List Char) : Option ℚ :=
  if cs.isEmpty then some 0
  else
    let neg : Bool := cs.head? = some '-'
    let body := if cs.head? = some '-' || cs.head? = some '+' then cs.tail else cs
    let intPart := body.takeWhile Char.isDigit
    let rest := body.dropWhile Char.isDigit
    let signed : ℚ → Option ℚ := fun v => some (if neg then -v else v)
    match rest with
    | [] => if intPart.isEmpty then none else signed (digitsVal intPart)
    | '.' :: frac =>
      if frac.all Char.isDigit && !(intPart.isEmpty && frac.isEmpty) then
        signed ((digitsVal intPart : ℚ) + (digitsVal frac : ℚ) / (10 : ℚ) ^ frac.length)
      else none
    | _ =>
      none

/-- `Number(s)` (plus finiteness), on a `String`. -/
def parseNumber (s : String) : Option ℚ := parseNumberChars s.data

/-- `Math.round((value + Number.EPSILON) * 100) / 100`, the 2-decimal rounding
helper, over exact rationals (the `Number.EPSILON` nudge is a float artifact
with no rational meaning): `Math.round` is `⌊x + 1/2⌋` (half-up). -/
def round2 (value : ℚ) : ℚ := ((⌊value * 100 + 1 / 2⌋ : ℤ) : ℚ) / 100

/-! ## Month keys -/

/-- `toMonthKey(year, month)`: `` `${year}-${String(month).padStart(2, "0")}` ``. -/
def toMonthKey (year month : Int) : String :=
  toString year ++ "-" ++ padStart2 (toString month)

/-- `parseMonthKey(monthKey)`: split on `"-"`, `Number` each of the first two
parts (`Number(undefined)` is `NaN`, i.e. `none`). -/
def parseMonthKey (monthKey : String) : Option ℚ × Option ℚ :=
  let parts := splitDash monthKey.data
  ((parts.get? 0).bind parseNumberChars, (parts.get? 1).bind parseNumberChars)

/-- The current UTC date, as far as this program reads it. -/
structure NowDate where
  year : Int
  month : Int
deriving DecidableEq

/-- `getLastClosedMonth(now)`: the previous calendar month, rolling to
December of the prior year in January. -/
def getLastClosedMonth (now : NowDate) : NowDate :=
  if now.month = 1 then ⟨now.year - 1, 12⟩ else ⟨now.year, now.month - 1⟩

/-- The `listMonths` while-loop: push `(year, month)` while
`year < end.year || (year == end.year && month <= end.month)`, incrementing
with a December wrap. `fuel` bounds the iteration count (the caller passes
one more than the month distance, which the loop never exceeds). -/
def listMonthsGo (endYear endMonth : Int) : Nat → Int → Int → List (Int × Int)
  | 0, _, _ => []
  | fuel + 1, year, month =>
    if year < endYear ∨ (year = endYear ∧ month ≤ endMonth) then
      (year, month) ::
        (if month = 12 then listMonthsGo endYear endMonth fuel (year + 1) 1
         else listMonthsGo endYear endMonth fuel year (month + 1))
    else []

/-- Months as a linear index, for measuring the loop. -/
def monthIdx (year month : Int) : Int := year * 12 + month

/-- `listMonths(startKey, endKey)`. The JS loop runs over the parsed numeric
bounds; the pipeline only ever calls it with keys `toMonthKey` built, whose
parts parse back to integers. Non-integer or non-numeric bounds (on which the
JS loop would run zero iterations, or never terminate for a fractional start)
are unreachable from `main` and modelled as the empty walk. -/
def listMonths (startKey endKey : String) : List (Int × Int) :=
  let toI : Option ℚ → Option Int := fun q =>
    q.bind fun q => if q.den = 1 then some q.num else none
  match toI (parseMonthKey startKey).1, toI (parseMonthKey startKey).2,
      toI (parseMonthKey endKey).1, toI (parseMonthKey endKey).2 with
  | some sy, some sm, some ey, some em =>
    listMonthsGo ey em ((monthIdx ey em - monthIdx sy sm).toNat + 1) sy sm
  | _, _, _, _ => []

/-! ## JS object / `Map` as insertion-ordered association lists -/

/-- `obj[k] = v` / `map.set(k, v)`: replace in place if the key exists, else
append. -/
def objSet {α β : Type} [DecidableEq α] : List (α × β) → α → β → List (α × β)
  | [], k, v => [(k, v)]
  | (k', v') :: rest, k, v =>
    if k' = k then (k', v) :: rest else (k', v') :: objSet rest k v

/-- `obj[k]` / `map.get(k)` (`none` = `undefined`). -/
def objGet {α β : Type} [DecidableEq α] (l : List (α × β)) (k : α) : Option β :=
  (l.find? (fun p => p.1 = k)).map (·.2)

/-! ## Tariff rows and `selectRates` -/

/-- One tariff row of `ledger.rates`. The source's key field is named `from`
(a reserved word in Lean), written `effectiveFrom` here as the spec does. -/
structure TariffRow where
  effectiveFrom : String
  localDiscountOreInclVat : ℚ
  gridTransferOreInclVat : ℚ
  energyTaxOreInclVat : ℚ
  norrlandDeductionOreInclVat : ℚ
deriving DecidableEq

/-- The sort comparator `(a, b) => a.from.localeCompare(b.from)` as a `≤`. -/
def rateLe (a b : TariffRow) : Bool := strLe a.effectiveFrom b.effectiveFrom

/-- `selectRates(rates, monthKey)`: stable-sort by `effectiveFrom` ascending,
take the last row with `effectiveFrom <= monthKey`, else the first sorted row.
`none` only when `rates` is empty (where the JS returns `undefined` and the
caller would crash; see `runMain`). -/
def selectRates (rates : List TariffRow) (monthKey : String) : Option TariffRow :=
  let sorted := rates.mergeSort rateLe
  match (sorted.filter (fun rate => strLe rate.effectiveFrom monthKey)).getLast? with
  | some m => some m
  | none => sorted.head?

/-! ## `calculateMonth` -/

/-- Per-identity cost breakdown (`adjustedElPriceOre` is `null` when the spot
price is unknown). -/
structure Breakdown where
  adjustedElPriceOre : Option ℚ
  elhandelKr : ℚ
  elnatKr : ℚ
  totalKr : ℚ
deriving DecidableEq

/-- The `inputs` block echoed into each month record. -/
structure MonthInputs where
  spotOreInclVat : Option ℚ
  meKWh : Option ℚ
  neighborKWh : Option ℚ
deriving DecidableEq

/-- The `appliedRates` block: the four tariff components copied from the
selected row. -/
structure AppliedRates where
  localDiscountOreInclVat : ℚ
  gridTransferOreInclVat : ℚ
  energyTaxOreInclVat : ℚ
  norrlandDeductionOreInclVat : ℚ
deriving DecidableEq

/-- The `result` block: one breakdown per identity. -/
structure MonthResult where
  me : Breakdown
  neighbor : Breakdown
deriving DecidableEq

/-- What `calculateMonth` returns (its `monthKey` argument is unused by the
computation and omitted). -/
structure Calculated where
  inputs : MonthInputs
  appliedRates : AppliedRates
  result : MonthResult
  warnings : List String
deriving DecidableEq

/-- `calculateMonth({monthKey, spotOreInclVat, meKWh, neighborKWh, rates})`. -/
def calculateMonth (spotOreInclVat meKWh neighborKWh : Option ℚ)
    (rates : TariffRow) : Calculated :=
  let warnings :=
    (if spotOreInclVat = none then ["MissingJamtkraftPrice"] else []) ++
    (if meKWh = none then ["MissingEaseeUsageMe"] else []) ++
    (if neighborKWh = none then ["MissingEaseeUsageNeighbor"] else [])
  let appliedRates : AppliedRates :=
    ⟨rates.localDiscountOreInclVat, rates.gridTransferOreInclVat,
     rates.energyTaxOreInclVat, rates.norrlandDeductionOreInclVat⟩
  let adjustedElPriceOre : Option ℚ :=
    spotOreInclVat.map (fun spot => spot - rates.localDiscountOreInclVat)
  let buildResult : Option ℚ → Breakdown := fun kwhOpt =>
    match spotOreInclVat, kwhOpt with
    | some spot, some kwh =>
      let adjusted := spot - rates.localDiscountOreInclVat
      let elhandelKr := round2 (kwh * adjusted / 100)
      let elnatKr := round2 (kwh *
        (rates.gridTransferOreInclVat + rates.energyTaxOreInclVat +
          rates.norrlandDeductionOreInclVat) / 100)
      let totalKr := round2 (elhandelKr + elnatKr)
      ⟨some (round2 adjusted), elhandelKr, elnatKr, totalKr⟩
    | _, _ => ⟨adjustedElPriceOre, 0, 0, 0⟩
  { inputs := ⟨spotOreInclVat, meKWh, neighborKWh⟩
    appliedRates := appliedRates
    result := ⟨buildResult meKWh, buildResult neighborKWh⟩
    warnings := warnings }

/-! ## `fetchWithRetry`

The transport layer is abstracted as an oracle `attempts : Nat → Except JsError
Response` giving the outcome `await fetch(url, options)` would have had on the
n-th attempt (1-based), plus the outcome `fallback` of the one
insecure-dispatcher request. The model returns the result together with the
ordered trace of observable events (normal attempts, backoff waits, the
insecure fallback request), which is what the claims about retry counts,
backoff and fallback scoping talk about. -/

/-- A thrown JS error: its message, its optional `code`, its optional cause. -/
inductive JsError where
  | mk (message : String) (code : Option String) (cause : Option JsError)

def JsError.message : JsError → String
  | .mk m _ _ => m

def JsError.code : JsError → Option String
  | .mk _ c _ => c

def JsError.cause : JsError → Option JsError
  | .mk _ _ c => c

/-- `error?.cause?.code ?? error?.cause?.cause?.code`. -/
def tlsCodeOf (e : JsError) : Option String :=
  match e.cause with
  | none => none
  | some primaryCause =>
    match primaryCause.code with
    | some c => some c
    | none => primaryCause.cause.bind JsError.code

/-- An HTTP response as far as this program reads one. -/
structure Response where
  status : Nat
deriving DecidableEq

/-- The retry policy argument (with the source's defaults). -/
structure RetryPolicy where
  retries : Nat := 3
  retryDelayMs : Nat := 1000
  label : String := "Fetch"
  allowInsecureTls : Bool := false

/-- Observable events of one `fetchWithRetry` call. -/
inductive FetchEvent where
  | attempt (n : Nat)
  | waitMs (ms : Nat)
  | insecureAttempt
deriving DecidableEq

/-- The final `throw new Error(`${label} failed: ${message}`, { cause })`. -/
def wrapFailure (label : String) (lastError : Option JsError) : JsError :=
  .mk (label ++ " failed: " ++ (match lastError with
    | some e => e.message
    | none => "undefined")) none lastError

/-- Should this failure take the insecure-TLS fallback? -/
def shouldFallback (p : RetryPolicy) (e : JsError) : Bool :=
  p.allowInsecureTls && tlsCodeOf e = some "UNABLE_TO_GET_ISSUER_CERT_LOCALLY"

/-- The `for (attempt = 1; attempt <= retries; ...)` loop body, structurally
recursing on the number of remaining attempts (`remaining = retries - attempt
+ 1`). Returns the call's outcome and its event trace. -/
def fetchLoop (p : RetryPolicy) (attempts : Nat → Except JsError Response)
    (fallback : Except JsError Response) :
    Nat → Nat → Except JsError Response × List FetchEvent
  | 0, _ => (.error (wrapFailure p.label none), [])
  | remaining + 1, attempt =>
    match attempts attempt with
    | .ok response => (.ok response, [.attempt attempt])
    | .error e =>
      if shouldFallback p e then
        (fallback, [.attempt attempt, .insecureAttempt])
      else if remaining = 0 then
        (.error (wrapFailure p.label (some e)), [.attempt attempt])
      else
        let rest := fetchLoop p attempts fallback remaining (attempt + 1)
        (rest.1, .attempt attempt :: .waitMs (p.retryDelayMs * attempt) :: rest.2)

/-- `fetchWithRetry(url, options, policy)` over the attempt oracle. -/
def fetchWithRetry (p : RetryPolicy) (attempts : Nat → Except JsError Response)
    (fallback : Except JsError Response) : Except JsError Response × List FetchEvent :=
  fetchLoop p attempts fallback p.retries 1

/-- The event trace of `k` consecutive failed attempts starting at attempt
number `start`, each followed by its linear-backoff wait
(`retryDelayMs × attemptNumber`). -/
def preTrace (delayMs : Nat) : Nat → Nat → List FetchEvent
  | _, 0 => []
  | start, k + 1 =>
    .attempt start :: .waitMs (delayMs * start) :: preTrace delayMs (start + 1) k

/-! ## Jämtkraft extraction (`parseJamtkraft`)

The document is modelled at the seam where `cheerio` hands data to this
program: the parsed `#__NEXT_DATA__` payload (or `none` when the element is
absent, its text empty, or `JSON.parse` throws — all three return `null` in
the source), every `<table>` with its caption text, `thead th` texts and
`tbody tr` cell texts (each already `.text().trim()`-extracted, which is what
cheerio returns), and the flattened body text. The rendered-table and
free-text strategies are pure functions over this structure, exactly as in
the source; the embedded-data strategy is *not* total in the source — a
shape-mismatched payload (a non-array `content`, a `null` content element, a
truthy string row) makes it throw a `TypeError` that nothing catches before
`main`'s handler — so the payload seam carries those shapes and
`parseNextData` returns them as errors. -/

/-- `year → month → price` table; keys as the JS object keys behave (a year
key is the number the row's first cell parsed to). -/
abbrev SpotTable := List (ℚ × List (Int × ℚ))

/-- One element of an embedded table's `rows` array as strategy 1 receives
it: `cells` for an array of cells, each cell the stringification
`String(cell?.value)` when the cell and its `value` are present; `str` for a
string element. A truthy (non-empty) string makes the strategy throw a
`TypeError` — at `.slice(1).map` when it is the header row, at
`.slice(1).forEach` when it is a data row (whose year parses as
`Number("") = 0`, which is finite, so the `continue` guard does not skip it
first). The empty string is falsy, and `headerRow || []` / `row || []` turn
it — like any other falsy row element — into `[]`, which `cells []` also
represents. -/
inductive NextRow where
  | str : String → NextRow
  | cells : List (Option String) → NextRow

/-- One `inlineTable` block of the embedded payload: optional caption
(compared through `String(table.caption ?? "")`) and the `rows` array. An
absent or falsy-`length` `rows` is the empty list — the
`!targetTable?.rows?.length` guard rejects both the same way. -/
structure NextTable where
  caption : Option String
  rows : List NextRow

/-- One element of the `content` array: `jsNull` for a `null` (or
`undefined`) element, whose `block.inlineTable` access throws a `TypeError`;
`block t` for any other element, with `t` its `inlineTable` when that is
truthy (`filter(Boolean)` drops the rest, so a falsy `inlineTable` is
`none`). -/
inductive NextBlock where
  | jsNull : NextBlock
  | block : Option NextTable → NextBlock

/-- `nextData?.props?.pageProps?.componentProps?.content ?? []` as strategy 1
receives it: `arr` for an array (a nullish optional-chain result is replaced
by `[]`, modelled as `arr []`); `nonArray` for any other present value, on
which the `content.map` call throws a `TypeError`. -/
inductive NextContent where
  | nonArray : NextContent
  | arr : List NextBlock → NextContent

/-- The parsed `#__NEXT_DATA__` payload, at the `content` seam. -/
structure NextData where
  content : NextContent

/-- One rendered `<table>`: caption text (trimmed), `thead th` texts, and the
`th, td` texts of each `tbody tr`. -/
structure HtmlTable where
  caption : String
  theadCells : List String
  tbodyRows : List (List String)

/-- The fetched HTML document, at the cheerio seam. -/
structure Doc where
  nextData : Option NextData
  tables : List HtmlTable
  bodyText : String

/-- The fixed Swedish month-abbreviation table. -/
def monthMap : List String :=
  ["jan", "feb", "mar", "apr", "maj", "jun", "jul", "aug", "sep", "okt", "nov", "dec"]

/-- `monthMap.indexOf(header.slice(0, 3).toLowerCase()) + 1`, with the
`if (!monthIndex) return` guard folded in (`none` = skipped). -/
def monthIndexFor (header : String) : Option Nat :=
  (monthMap.findIdx? (fun m => m = lowerStr (take3 header))).map (· + 1)

/-- The caption test selecting the target embedded table. -/
def nextTablePred (table : NextTable) : Bool :=
  let caption := collapseWs (table.caption.getD "")
  strEndsWith caption "2" && strContainsSub (lowerStr caption) "elomr"

/-- `Number(String(cells[0]?.value ?? "").replace(/\s/g, ""))` with the
`isFinite` guard: the year a `parseNextData` data row contributes under. -/
def nextRowYear (row : List (Option String)) : Option ℚ :=
  parseNumber (stripAllWs (((row.get? 0).bind id).getD ""))

/-- `Number(cells[0])` with the `isFinite` guard (`Number(undefined)` is
`NaN`): the year a `parseTable` body row contributes under. -/
def tableRowYear (cells : List String) : Option ℚ :=
  (cells.get? 0).bind parseNumber

/-- The `cells.slice(1).forEach(...)` month-values accumulation of
`parseNextData`: map each cell through its header's month index and numeric
parse, skipping unrecognized headers and non-finite values. -/
def nextMonthValues (monthHeaders : List String) (row : List (Option String)) :
    List (Int × ℚ) :=
  (row.drop 1).enum.foldl (fun mv p =>
    let header := (monthHeaders.get? p.1).getD ""
    match monthIndexFor header with
    | none => mv
    | some monthIndex =>
      match parseNumber (cleanNumeric (p.2.getD "")) with
      | none => mv
      | some numeric => objSet mv (monthIndex : Int) numeric) []

/-- The `cells.slice(1).forEach(...)` month-values accumulation of
`parseTable` (headers offset by one: `monthHeaders[index + 1]`). -/
def tableMonthValues (monthHeaders : List String) (cells : List String) :
    List (Int × ℚ) :=
  (cells.drop 1).enum.foldl (fun mv p =>
    let header := (monthHeaders.get? (p.1 + 1)).getD ""
    match monthIndexFor header with
    | none => mv
    | some monthIndex =>
      match parseNumber (cleanNumeric p.2) with
      | none => mv
      | some numeric => objSet mv (monthIndex : Int) numeric) []

/-- Which property access or method call of strategy 1 threw a `TypeError`
on a shape mismatch; `typeErrText` renders each site's engine message. -/
inductive TypeErr where
  | contentMap : TypeErr
  | blockInlineTable : TypeErr
  | headerRowMap : TypeErr
  | rowForEach : TypeErr
  deriving DecidableEq

/-- `content.map((block) => block.inlineTable).filter(Boolean)` over an
array `content`: the `map` callback visits every element in order, so the
first `null` element throws even when it comes after the target table. -/
def blockTables : List NextBlock → Except TypeErr (List NextTable)
  | [] => .ok []
  | .jsNull :: _ => .error .blockInlineTable
  | .block t :: rest =>
    (blockTables rest).map (fun ts =>
      match t with
      | some table => table :: ts
      | none => ts)

/-- `(headerRow || []).slice(1).map((cell) => String(cell?.value ?? "").trim())`:
a truthy string header row throws at the `.map` call. -/
def headerCellsOf : NextRow → Except TypeErr (List String)
  | .str s => if s.isEmpty then .ok [] else .error .headerRowMap
  | .cells l => .ok ((l.drop 1).map (fun cell => jsTrim (cell.getD "")))

/-- The body of one `for (const row of dataRows)` iteration over an array
row: year parse, `continue` on a non-finite year, else the `forEach`
accumulation and the unconditional `rows[year] = monthValues`. -/
def nextCellsStep (monthHeaders : List String) (rows : SpotTable)
    (l : List (Option String)) : SpotTable :=
  match nextRowYear l with
  | none => rows
  | some year => objSet rows year (nextMonthValues monthHeaders l)

/-- One `for (const row of dataRows)` iteration: a truthy string row reaches
`cells.slice(1).forEach` (its year parses as `Number("") = 0`, which is
finite) and throws there; the empty string is falsy and behaves as `[]`. -/
def nextRowStep (monthHeaders : List String) (rows : SpotTable) :
    NextRow → Except TypeErr SpotTable
  | .str s =>
    if s.isEmpty then .ok (nextCellsStep monthHeaders rows [])
    else .error .rowForEach
  | .cells l => .ok (nextCellsStep monthHeaders rows l)

/-- The data-row loop, left to right, stopping at the first thrown
`TypeError`. -/
def nextRowsLoop (monthHeaders : List String) :
    List NextRow → SpotTable → Except TypeErr SpotTable
  | [], rows => .ok rows
  | row :: rest, rows =>
    match nextRowStep monthHeaders rows row with
    | .error e => .error e
    | .ok updated => nextRowsLoop monthHeaders rest updated

/-- Strategy 1, `parseNextData()`: find the embedded table whose normalized
caption ends in `"2"` and contains `"elomr"` case-insensitively; harvest
`(year, month value…)` rows. A data row is skipped only when its first cell
does not parse to a finite number; `rows[year] = monthValues` is unconditional
after that. `.ok none` is the source's `return null`; `.error` is a
`TypeError` thrown on one of the shape mismatches `NextContent`, `NextBlock`
and `NextRow` represent, which escapes the strategy (nothing catches it
before `main`'s handler). -/
def parseNextData (doc : Doc) : Except TypeErr (Option SpotTable) :=
  match doc.nextData with
  | none => .ok none
  | some nextData =>
    match nextData.content with
    | .nonArray => .error .contentMap
    | .arr blocks =>
      match blockTables blocks with
      | .error e => .error e
      | .ok tables =>
        match tables.find? nextTablePred with
        | none => .ok none
        | some t =>
          match t.rows with
          | [] => .ok none
          | headerRow :: dataRows =>
            match headerCellsOf headerRow with
            | .error e => .error e
            | .ok monthHeaders =>
              match nextRowsLoop monthHeaders dataRows [] with
              | .error e => .error e
              | .ok rows => .ok (if rows.isEmpty then none else some rows)

/-- Strategy 2, `parseTable()`: the `<table>`s whose caption is exactly
`"Elområde 2"`; headers and body rows are read across every matched table (a
cheerio set). The same unconditional `rows[year] = monthValues`. -/
def parseTable (doc : Doc) : Option SpotTable :=
  let matching := doc.tables.filter (fun t => t.caption = "Elområde 2")
  if matching.isEmpty then none
  else
    let monthHeaders := (matching.map (·.theadCells)).flatten
    let bodyRows := (matching.map (·.tbodyRows)).flatten
    let rows := bodyRows.foldl (fun rows cells =>
      match tableRowYear cells with
      | none => rows
      | some year => objSet rows year (tableMonthValues monthHeaders cells)) []
    if rows.isEmpty then none else some rows

/-! ### Strategy 3, `parseText()`

The source scans the collapsed body text after the first `"Elområde 2"` with
`/(\d{4})\s+((?:\d{1,3}[,.]\d{1,2}\s+){11}\d{1,3}[,.]\d{1,2})/g`. The model
below simulates that regex (with its backtracking) directly: at each start
position, exactly four digits, then whitespace, then eleven
`1–3 digits, separator, 1–2 digits, whitespace` groups and a final group
without the trailing whitespace requirement (whose fraction greedily takes at
most two digits of a longer run, as the regex does); on success the engine
resumes after the match, on failure one character later. -/

/-- First occurrence: `bodyText.slice(bodyText.indexOf(needle))`, `none` when
`indexOf` is `-1`. -/
def suffixFrom (needle : List Char) : List Char → Option (List Char)
  | [] => if needle.isEmpty then some [] else none
  | c :: cs => if needle.isPrefixOf (c :: cs) then some (c :: cs) else suffixFrom needle cs

/-- `\s+`: at least one whitespace character, consumed greedily. -/
def takeSpaces (cs : List Char) : Option (List Char) :=
  match cs with
  | c :: rest => if isJsSpace c then some (rest.dropWhile isJsSpace) else none
  | [] => none

/-- One `\d{1,3}[,.]\d{1,2}\s+` group: token characters and the rest. -/
def midNumber (cs : List Char) : Option (List Char × List Char) :=
  let ip := cs.takeWhile Char.isDigit
  let r1 := cs.dropWhile Char.isDigit
  if ip.length < 1 || 3 < ip.length then none
  else
    match r1 with
    | sep :: r2 =>
      if sep = ',' || sep = '.' then
        let fp := r2.takeWhile Char.isDigit
        let r3 := r2.dropWhile Char.isDigit
        if fp.length < 1 || 2 < fp.length then none
        else (takeSpaces r3).map (fun rest => (ip ++ sep :: fp, rest))
      else none
    | [] => none

/-- The final `\d{1,3}[,.]\d{1,2}` group: no trailing whitespace required, the
fraction takes greedily at most two digits. -/
def lastNumber (cs : List Char) : Option (List Char × List Char) :=
  let ip := cs.takeWhile Char.isDigit
  let r1 := cs.dropWhile Char.isDigit
  if ip.length < 1 || 3 < ip.length then none
  else
    match r1 with
    | sep :: r2 =>
      if sep = ',' || sep = '.' then
        let fp := (r2.takeWhile Char.isDigit).take 2
        if fp.length < 1 then none
        else some (ip ++ sep :: fp, r2.drop fp.length)
      else none
    | [] => none

/-- Eleven `midNumber` groups then one `lastNumber` group. -/
def groupsFrom : Nat → List Char → Option (List (List Char) × List Char)
  | 0, cs => (lastNumber cs).map (fun p => ([p.1], p.2))
  | n + 1, cs =>
    (midNumber cs).bind (fun p => (groupsFrom n p.2).map (fun q => (p.1 :: q.1, q.2)))

/-- One attempted regex match anchored at the head of `cs`: the captured year,
the twelve value tokens' month map, and the remainder after the match. -/
def tryMatchAt (cs : List Char) : Option (ℚ × List (Int × ℚ) × List Char) :=
  match cs with
  | c1 :: c2 :: c3 :: c4 :: rest =>
    if c1.isDigit && c2.isDigit && c3.isDigit && c4.isDigit then
      (takeSpaces rest).bind (fun afterYear =>
        (groupsFrom 11 afterYear).bind (fun g =>
          let values := g.1.map (fun tok => parseNumber (String.mk (replaceFirstComma tok)))
          let year : ℚ := (digitsVal [c1, c2, c3, c4] : ℚ)
          if values.length ≠ 12 then none
          else
            let monthValues := values.enum.foldl (fun mv p =>
              match p.2 with
              | some value => objSet mv ((p.1 : Int) + 1) value
              | none => mv) []
            some (year, monthValues, g.2)))
    else none
  | _ => none

/-- The `while ((match = yearRegex.exec(section)))` loop: left-to-right scan,
resuming after each match. `fuel` bounds the scan length (callers pass the
section length plus one, which the loop cannot exceed). -/
def scanRows : Nat → List Char → SpotTable → SpotTable
  | 0, _, rows => rows
  | _ + 1, [], rows => rows
  | fuel + 1, c :: cs, rows =>
    match tryMatchAt (c :: cs) with
    | some (year, monthValues, rest) => scanRows fuel rest (objSet rows year monthValues)
    | none => scanRows fuel cs rows

/-- Strategy 3, `parseText()`. -/
def parseText (doc : Doc) : Option SpotTable :=
  let bodyText := collapseWs doc.bodyText
  match suffixFrom "Elområde 2".data bodyText.data with
  | none => none
  | some sectionText =>
    let rows := scanRows (sectionText.length + 1) sectionText []
    if rows.isEmpty then none else some rows

/-- How the strategy chain fails: `extractionFailed` is the source's own
`throw new Error("Could not parse Jamtkraft Elområde 2 data")`; `typeError`
is a `TypeError` escaping strategy 1 (there is no `catch` between the
strategy calls and `main`'s handler). -/
inductive ExtractErr where
  | typeError : TypeErr → ExtractErr
  | extractionFailed : ExtractErr
  deriving DecidableEq

/-- `error.message` of each strategy-1 `TypeError`, as Node's V8 renders the
failing site. The text is the engine's, not this program's; no theorem below
depends on it — the claims about throws are stated over `ExtractErr`
directly. -/
def typeErrText : TypeErr → String
  | .contentMap => "content.map is not a function"
  | .blockInlineTable => "Cannot read properties of null (reading \x27inlineTable\x27)"
  | .headerRowMap => "(headerRow || []).slice(...).map is not a function"
  | .rowForEach => "cells.slice(...).forEach is not a function"

/-- `error.message` of a failed extraction. -/
def extractErrText : ExtractErr → String
  | .typeError t => typeErrText t
  | .extractionFailed => "Could not parse Jamtkraft Elområde 2 data"

/-- The strategy chain `parseNextData() ?? parseTable() ?? parseText()` with
the final `throw new Error("Could not parse Jamtkraft Elområde 2 data")`.
A `TypeError` thrown inside strategy 1 propagates out of the chain, so the
later strategies are not consulted. -/
def parseJamtkraftDoc (doc : Doc) : Except ExtractErr SpotTable :=
  match parseNextData doc with
  | .error e => .error (.typeError e)
  | .ok (some parsed) => .ok parsed
  | .ok none =>
    match parseTable doc with
    | some parsed => .ok parsed
    | none =>
      match parseText doc with
      | some parsed => .ok parsed
      | none => .error .extractionFailed

/-- `response.ok`: HTTP status in the 200–299 range. -/
def responseOk (status : Nat) : Bool := 200 ≤ status && status ≤ 299

/-- The Jämtkraft page response as this program reads it. -/
structure JamtkraftHttp where
  status : Nat
  doc : Doc

/-- `parseJamtkraft()`: fetch (given as its outcome), status check, strategy
chain; whatever escapes — the chain's own error or a strategy's `TypeError`
— reaches `main`'s handler as its message. -/
def parseJamtkraft (net : Except String JamtkraftHttp) : Except String SpotTable :=
  match net with
  | .error e => .error e
  | .ok response =>
    if !responseOk response.status then
      .error ("Jamtkraft request failed with " ++ toString response.status)
    else
      match parseJamtkraftDoc response.doc with
      | .ok parsed => .ok parsed
      | .error e => .error (extractErrText e)

/-! ## Easee usage client -/

/-- One entry of the monthly-usage response. The provider reports integral
`year`/`month` (absent/`null` modelled as `none`; the code's truthiness test
also rejects `0`). `totalEnergyUsage` may be absent, and its absence is
stored into the map as `undefined`, faithfully kept as an `Option`. -/
structure EaseeEntry where
  year : Option Int
  month : Option Int
  totalEnergyUsage : Option ℚ

/-- JS truthiness of an optional number: absent, `null` and `0` are falsy. -/
def entryTruthy : Option Int → Bool
  | none => false
  | some v => v ≠ 0

/-- The monthly-usage endpoint's response. -/
structure EaseeUsageHttp where
  status : Nat
  body : List EaseeEntry

/-- `fetchEaseeMonthlyUsage(siteId, userId, token)`: status check, then keep
exactly the entries with truthy `year` **and** truthy `month`, keyed by
`toMonthKey(year, month)` into an insertion-ordered map (later duplicates
overwrite). -/
def fetchEaseeMonthlyUsage (userId : ℚ) (net : Except String EaseeUsageHttp) :
    Except String (List (String × Option ℚ)) :=
  match net with
  | .error e => .error e
  | .ok response =>
    if !responseOk response.status then
      .error ("Easee API failed for " ++ toString userId ++ " with " ++
        toString response.status)
    else
      .ok (response.body.foldl (fun usage entry =>
        if entryTruthy entry.year && entryTruthy entry.month then
          objSet usage (toMonthKey (entry.year.getD 0) (entry.month.getD 0))
            entry.totalEnergyUsage
        else usage) [])

/-- A site-user element, at the seam `extractUserId` reads it: a bare number,
a string, an object (carrying `Number(user.userId ?? user.userID ?? user.id
?? user.user?.id)` — `some` its value when that is finite), or `null`-ish. -/
inductive EaseeUser where
  | num (n : ℚ)
  | str (s : String)
  | obj (candidate : Option ℚ)
  | nullish

/-- `extractUserId(user)`. -/
def extractUserId : EaseeUser → Option ℚ
  | .num n => some n
  | .str s => parseNumber s
  | .obj candidate => candidate
  | .nullish => none

/-- The site-users response body: a bare array, or an object whose users sit
under `users` or `data` (`siteUsers?.users ?? siteUsers?.data ?? []`). -/
inductive SiteUsersBody where
  | array (users : List EaseeUser)
  | wrapped (users : Option (List EaseeUser)) (data : Option (List EaseeUser))

/-- `Array.isArray(siteUsers) ? siteUsers : siteUsers?.users ?? siteUsers?.data ?? []`. -/
def usersArrayOf : SiteUsersBody → List EaseeUser
  | .array xs => xs
  | .wrapped u d => (u.orElse (fun _ => d)).getD []

/-- The site-users endpoint's response. -/
structure SiteUsersHttp where
  status : Nat
  body : SiteUsersBody

/-- `fetchEaseeSiteUsers(siteId, token)`. -/
def fetchEaseeSiteUsers (net : Except String SiteUsersHttp) : Except String SiteUsersBody :=
  match net with
  | .error e => .error e
  | .ok response =>
    if !responseOk response.status then
      .error ("Easee site users failed with " ++ toString response.status)
    else .ok response.body

/-- The login response: status and `data?.accessToken`. -/
structure LoginHttp where
  status : Nat
  accessToken : Option String

/-- `loginEasee(userName, password)`: status check, then the token — with the
`!data?.accessToken` falsiness test, so an empty-string token also fails. -/
def loginEasee (net : Except String LoginHttp) : Except String String :=
  match net with
  | .error e => .error e
  | .ok response =>
    if !responseOk response.status then
      .error ("Easee login failed with " ++ toString response.status)
    else
      match response.accessToken with
      | some token =>
        if token.isEmpty then .error "Easee login response missing accessToken"
        else .ok token
      | none => .error "Easee login response missing accessToken"

/-! ## Ledger and the `main` run -/

/-- `ledger.identities`. The ledger's own configuration carries finite
numeric user ids (the `Number.isFinite` filter on them is identity here). -/
structure Identities where
  siteId : Int
  meUserId : ℚ
  neighborUserId : ℚ
deriving DecidableEq

/-- `ledger.meta`. -/
structure Meta where
  updatedAtUtc : String
  lastRunStatus : String
  lastError : Option String
deriving DecidableEq

/-- One persisted month record. -/
structure MonthRecord where
  year : Int
  month : Int
  isLocked : Bool
  inputs : MonthInputs
  appliedRates : AppliedRates
  result : MonthResult
  warnings : List String
deriving DecidableEq

/-- The persisted ledger snapshot. -/
structure Ledger where
  identities : Identities
  rates : List TariffRow
  months : List MonthRecord
  meta : Meta
deriving DecidableEq

/-- Everything the fetch phase observes from the outside world in one run:
each network call's outcome and the three credential environment variables. -/
structure FetchEnv where
  jamtkraftNet : Except String JamtkraftHttp
  tokenFromEnv : Option String
  easeeUserName : Option String
  easeePassword : Option String
  loginNet : Except String LoginHttp
  siteUsersNet : Except String SiteUsersHttp
  meUsageNet : Except String EaseeUsageHttp
  neighborUsageNet : Except String EaseeUsageHttp

/-- JS truthiness of an optional environment string (`""` is falsy). -/
def envTruthy : Option String → Bool
  | none => false
  | some s => !s.isEmpty

/-- What a successful fetch phase yields. -/
structure FetchData where
  jamtkraftData : SpotTable
  meUsage : List (String × Option ℚ)
  neighborUsage : List (String × Option ℚ)

/-- The `try { ... }` block of `main`: tariff extraction, credential
resolution (`EASEE_TOKEN` wins; else username+password must both be set),
login when needed, site-users fetch, the identity pre-flight (`throw` when
ids are known and an expected id is absent), then both usage fetches — the
first failure anywhere aborts the phase. -/
def fetchPhase (identities : Identities) (env : FetchEnv) : Except String FetchData := do
  let jamtkraftData ← parseJamtkraft env.jamtkraftNet
  let _token ←
    if envTruthy env.tokenFromEnv then pure (env.tokenFromEnv.getD "")
    else if !envTruthy env.easeeUserName || !envTruthy env.easeePassword then
      throw "Missing Easee credentials. Set EASEE_TOKEN or EASEE_USERNAME/EASEE_PASSWORD."
    else loginEasee env.loginNet
  let siteUsers ← fetchEaseeSiteUsers env.siteUsersNet
  let availableUserIds := (usersArrayOf siteUsers).filterMap extractUserId
  if !availableUserIds.isEmpty then
    let expectedUserIds := [identities.meUserId, identities.neighborUserId]
    let missing := expectedUserIds.filter (fun i => !availableUserIds.contains i)
    if !missing.isEmpty then
      throw ("Easee userId(s) not found on site " ++ toString identities.siteId ++
        ". Missing: " ++ String.intercalate ", " (missing.map toString) ++
        ". Available: " ++ String.intercalate ", " (availableUserIds.map toString))
  let meUsage ← fetchEaseeMonthlyUsage identities.meUserId env.meUsageNet
  let neighborUsage ← fetchEaseeMonthlyUsage identities.neighborUserId env.neighborUsageNet
  pure ⟨jamtkraftData, meUsage, neighborUsage⟩

/-- `new Map(ledger.months.map(m => [toMonthKey(m.year, m.month), m])).get(k)`:
for a duplicated key the **last** entry wins. -/
def monthMapGet (months : List MonthRecord) (k : String) : Option MonthRecord :=
  (months.filter (fun m => toMonthKey m.year m.month = k)).getLast?

/-- The recompute arm of one merge iteration: select the applicable tariff
row (`none` models the crash on an empty `ledger.rates`), look up the fetched
spot price and both usage values (each `?? null`), run `calculateMonth`, and
assemble the record with `isLocked: existing?.isLocked ?? false`. -/
def monthBuild (ledger : Ledger) (fd : FetchData) (year month : Int)
    (existing : Option MonthRecord) : Option MonthRecord :=
  match selectRates ledger.rates (toMonthKey year month) with
  | none => none
  | some selectedRates =>
    let monthKey := toMonthKey year month
    let spotOreInclVat := ((objGet fd.jamtkraftData (year : ℚ)).bind
      (fun ym => objGet ym month))
    let meKWh := (objGet fd.meUsage monthKey).join
    let neighborKWh := (objGet fd.neighborUsage monthKey).join
    let calculated := calculateMonth spotOreInclVat meKWh neighborKWh selectedRates
    some ⟨year, month, (existing.map MonthRecord.isLocked).getD false,
      calculated.inputs, calculated.appliedRates, calculated.result,
      calculated.warnings⟩

/-- One iteration of the merge loop: carry a locked prior record forward
unchanged, otherwise recompute from the fetched data. `none` models the
uncaught `TypeError` the JS would hit reading rate fields off `undefined`
when `ledger.rates` is empty (the merge loop is outside the `try`). -/
def monthStep (ledger : Ledger) (fd : FetchData) (year month : Int) :
    Option MonthRecord :=
  let monthKey := toMonthKey year month
  let existing := monthMapGet ledger.months monthKey
  match existing with
  | some ex =>
    if ex.isLocked then some ex else monthBuild ledger fd year month (some ex)
  | none => monthBuild ledger fd year month none

/-- The `for (const { year, month } of monthList)` push loop; `none` as soon
as one iteration crashes (nothing is written then). -/
def mergeMonths (ledger : Ledger) (fd : FetchData) : List (Int × Int) → Option (List MonthRecord)
  | [] => some []
  | ym :: rest =>
    match monthStep ledger fd ym.1 ym.2, mergeMonths ledger fd rest with
    | some r, some rs => some (r :: rs)
    | _, _ => none

/-- `main()`, from the loaded prior ledger to the snapshot written (to both
output targets): walk `2024-01 .. getLastClosedMonth(now)` merging when the
fetch phase succeeded, leave `months` untouched when it failed, and always
refresh `meta` with the run timestamp, status and error. `none` models the
crash (nothing written) on an empty `ledger.rates` with an unlocked month in
range. -/
def runMain (ledger : Ledger) (env : FetchEnv) (now : NowDate) (nowIso : String) :
    Option Ledger :=
  let lastClosed := getLastClosedMonth now
  let startKey := "2024-01"
  let endKey := toMonthKey lastClosed.year lastClosed.month
  let monthList := listMonths startKey endKey
  match fetchPhase ledger.identities env with
  | .error e => some { ledger with meta := ⟨nowIso, "FAIL", some e⟩ }
  | .ok fd =>
    match mergeMonths ledger fd monthList with
    | none => none
    | some updatedMonths =>
      some { ledger with months := updatedMonths, meta := ⟨nowIso, "OK", none⟩ }

/-! ## Concrete inputs used by witnesses and counterexamples -/

/-- A document whose embedded payload has the target table with a single data
row whose year parses but whose only month cell (`"abc"`) does not. -/
def c8NextDoc : Doc :=
  { nextData := some ⟨.arr [.block (some ⟨some "Elområde 2",
      [.cells [some "År", some "Jan"], .cells [some "2024", some "abc"]]⟩)]⟩
    tables := []
    bodyText := "" }

/-- A document whose rendered `Elområde 2` table has a single body row whose
year parses but whose only month cell (`"abc"`) does not. -/
def c8TableDoc : Doc :=
  { nextData := none
    tables := [⟨"Elområde 2", ["År", "Jan"], [["2024", "abc"]]⟩]
    bodyText := "" }

/-- Shared concrete identities for run-level witnesses. -/
def wIdentities : Identities := ⟨1, 11, 22⟩

/-- Shared concrete prior meta block for run-level witnesses. -/
def wMeta : Meta := ⟨"2024-01-01T00:00:00.000Z", "OK", none⟩

/-- Shared concrete tariff row for run-level witnesses. -/
def wRow : TariffRow := ⟨"2024-01", 5, 20, 40, 5⟩

/-- A fetch environment whose very first step (the tariff fetch) fails. -/
def c2FailEnv : FetchEnv :=
  { jamtkraftNet := .error "boom"
    tokenFromEnv := none
    easeeUserName := none
    easeePassword := none
    loginNet := .error "unused"
    siteUsersNet := .error "unused"
    meUsageNet := .error "unused"
    neighborUsageNet := .error "unused" }

/-- A prior ledger with a stale `updatedAtUtc`, for the failure-path runs. -/
def c2Ledger : Ledger := ⟨wIdentities, [], [], wMeta⟩

/-- A document that parses successfully (used by fetch-success runs). -/
def wSuccessDoc : Doc :=
  { nextData := some ⟨.arr [.block (some ⟨some "Elområde 2",
      [.cells [some "År", some "Jan"], .cells [some "2024", some "104,5"]]⟩)]⟩
    tables := []
    bodyText := "" }

/-- A document whose embedded payload's `content` holds a `null` element
ahead of a valid inline table, while a perfectly good rendered `Elområde 2`
table is also present. -/
def c7ThrowDoc : Doc :=
  { nextData := some ⟨.arr [.jsNull, .block (some ⟨some "Elområde 2",
      [.cells [some "År", some "Jan"], .cells [some "2024", some "104,5"]]⟩)]⟩
    tables := [⟨"Elområde 2", ["År", "Jan"], [["2024", "104,5"]]⟩]
    bodyText := "" }

/-- A fetch environment in which every step succeeds. -/
def wOkEnv : FetchEnv :=
  { jamtkraftNet := .ok ⟨200, wSuccessDoc⟩
    tokenFromEnv := some "token"
    easeeUserName := none
    easeePassword := none
    loginNet := .error "unused"
    siteUsersNet := .ok ⟨200, .array []⟩
    meUsageNet := .ok ⟨200, []⟩
    neighborUsageNet := .ok ⟨200, []⟩ }

/-- A locked prior record for 2024-01. -/
def c1LockedRec : MonthRecord :=
  ⟨2024, 1, true, ⟨some 100, some 10, some 10⟩, ⟨5, 20, 40, 5⟩,
    ⟨⟨some 95, 1, 2, 3⟩, ⟨some 95, 1, 2, 3⟩⟩, []⟩

/-- A prior ledger holding one locked month. -/
def c1Ledger : Ledger := ⟨wIdentities, [wRow], [c1LockedRec], wMeta⟩

/-- A prior ledger with a tariff row and no months. -/
def c10Ledger : Ledger := ⟨wIdentities, [wRow], [], wMeta⟩

/-! # Theorems -/

/-! ## Order lemmas for `strLe` -/

lemma charListLe_refl (as : List Char) : charListLe as as = true := by
  induction as with
  | nil => rfl
  | cons a as ih => simp [charListLe, ih]

lemma charListLe_total (as bs : List Char) :
    charListLe as bs = true ∨ charListLe bs as = true := by
  induction as generalizing bs with
  | nil => left; rfl
  | cons a as ih =>
    cases bs with
    | nil => right; rfl
    | cons b bs =>
      by_cases hab : a < b
      · left; simp [charListLe, hab]
      · by_cases hba : b < a
        · right; simp [charListLe, hba, hab]
        · rcases ih bs with h | h
          · left; simp [charListLe, hab, hba, h]
          · right; simp [charListLe, hab, hba, h]

lemma charListLe_trans :
    ∀ as bs cs, charListLe as bs = true → charListLe bs cs = true →
      charListLe as cs = true := by
  intro as
  induction as with
  | nil => intro bs cs _ _; rfl
  | cons a as ih =>
    intro bs cs hab hbc
    cases bs with
    | nil => simp [charListLe] at hab
    | cons b bs =>
      cases cs with
      | nil => simp [charListLe] at hbc
      | cons c cs =>
        simp only [charListLe] at hab hbc ⊢
        by_cases h1 : a < b
        · by_cases h2 : b < c
          · simp [lt_trans h1 h2]
          · by_cases h3 : c < b
            · simp [h2, h3] at hbc
            · have : b = c := le_antisymm (le_of_not_lt h3) (le_of_not_lt h2)
              simp [this ▸ h1]
        · by_cases h4 : b < a
          · simp [h1, h4] at hab
          · have hab' : a = b := le_antisymm (le_of_not_lt h4) (le_of_not_lt h1)
            subst hab'
            rw [if_neg (lt_irrefl a), if_neg (lt_irrefl a)] at hab
            by_cases h2 : a < c
            · simp [h2]
            · by_cases h3 : c < a
              · simp [h2, h3] at hbc
              · simp only [if_neg h2, if_neg h3] at hbc ⊢
                exact ih bs cs hab hbc

lemma strLe_refl (a : String) : strLe a a = true := charListLe_refl a.data

lemma rateLe_trans (a b c : TariffRow) (h1 : rateLe a b = true) (h2 : rateLe b c = true) :
    rateLe a c = true :=
  charListLe_trans _ _ _ h1 h2

lemma rateLe_total (a b : TariffRow) : (rateLe a b || rateLe b a) = true := by
  rcases charListLe_total a.effectiveFrom.data b.effectiveFrom.data with h | h <;>
    simp [rateLe, strLe, h]

/-! ## `selectRates` characterization (C4) -/

lemma pairwise_le_getLast {α : Type} {le : α → α → Bool}
    (hrefl : ∀ a, le a a = true) :
    ∀ (l : List α) (m : α), l.Pairwise (fun a b => le a b = true) →
      l.getLast? = some m → ∀ y ∈ l, le y m = true := by
  intro l
  induction l with
  | nil => intro m _ h; simp at h
  | cons a rest ih =>
    intro m hpw hlast y hy
    cases rest with
    | nil =>
      simp at hlast hy
      subst hlast; subst hy; exact hrefl _
    | cons b rest' =>
      rw [List.getLast?_cons_cons] at hlast
      have hm : m ∈ b :: rest' := List.mem_of_mem_getLast? (by simp [hlast])
      rcases hy with _ | hy
      · exact List.rel_of_pairwise_cons hpw hm
      · exact ih m hpw.of_cons hlast y (by assumption)

lemma pairwise_head_le {α : Type} {le : α → α → Bool}
    (hrefl : ∀ a, le a a = true) (l : List α) (h : α)
    (hpw : l.Pairwise (fun a b => le a b = true)) (hh : l.head? = some h) :
    ∀ y ∈ l, le h y = true := by
  cases l with
  | nil => simp at hh
  | cons a rest =>
    simp at hh
    subst hh
    intro y hy
    rcases hy with _ | hy
    · exact hrefl _
    · exact List.rel_of_pairwise_cons hpw (by assumption)

/-- C4 — `rateFor(R, k)` returns a row of `R` carrying the greatest
`effectiveFrom ≤ k`; when no row's `effectiveFrom` is `≤ k` it returns a row
carrying the minimum `effectiveFrom` of `R`; in both cases this is a result,
not an error (the result is `some` for every non-empty `R`). -/
theorem C4_rateFor_greatest_effective (rates : List TariffRow) (monthKey : String)
    (hne : rates ≠ []) :
    ∃ r, selectRates rates monthKey = some r ∧ r ∈ rates ∧
      ((∃ q ∈ rates, strLe q.effectiveFrom monthKey = true) →
        strLe r.effectiveFrom monthKey = true ∧
          ∀ q ∈ rates, strLe q.effectiveFrom monthKey = true →
            strLe q.effectiveFrom r.effectiveFrom = true) ∧
      ((∀ q ∈ rates, strLe q.effectiveFrom monthKey = false) →
        ∀ q ∈ rates, strLe r.effectiveFrom q.effectiveFrom = true) := by
  classical
  have hperm : (rates.mergeSort rateLe).Perm rates := List.mergeSort_perm rates rateLe
  have hpw : (rates.mergeSort rateLe).Pairwise (fun a b => rateLe a b = true) :=
    List.sorted_mergeSort (fun a b c => rateLe_trans a b c) rateLe_total rates
  have hlen : rates.mergeSort rateLe ≠ [] := by
    intro h
    rw [h] at hperm
    exact hne hperm.symm.eq_nil
  have hreflrate : ∀ a : TariffRow, rateLe a a = true := fun a => strLe_refl _
  have hsel : selectRates rates monthKey =
      match ((rates.mergeSort rateLe).filter
          (fun rate => strLe rate.effectiveFrom monthKey)).getLast? with
      | some m => some m
      | none => (rates.mergeSort rateLe).head? := rfl
  cases hlast : ((rates.mergeSort rateLe).filter
      (fun rate => strLe rate.effectiveFrom monthKey)).getLast? with
  | some m =>
    rw [hlast] at hsel
    have hmem : m ∈ (rates.mergeSort rateLe).filter
        (fun rate => strLe rate.effectiveFrom monthKey) :=
      List.mem_of_mem_getLast? (by simp [hlast])
    refine ⟨m, hsel, hperm.mem_iff.mp (List.mem_filter.mp hmem).1, ?_, ?_⟩
    · intro _
      refine ⟨(List.mem_filter.mp hmem).2, ?_⟩
      intro q hq hqk
      have hq' : q ∈ (rates.mergeSort rateLe).filter
          (fun rate => strLe rate.effectiveFrom monthKey) :=
        List.mem_filter.mpr ⟨hperm.mem_iff.mpr hq, hqk⟩
      exact pairwise_le_getLast hreflrate _ m (hpw.filter _) hlast q hq'
    · intro hall q hq
      have h2 := (List.mem_filter.mp hmem).2
      rw [hall _ (hperm.mem_iff.mp (List.mem_filter.mp hmem).1)] at h2
      exact absurd h2 (by simp)
  | none =>
    rw [hlast] at hsel
    have hflnil : (rates.mergeSort rateLe).filter
        (fun rate => strLe rate.effectiveFrom monthKey) = [] :=
      List.getLast?_eq_none_iff.mp hlast
    obtain ⟨h, hh⟩ : ∃ h, (rates.mergeSort rateLe).head? = some h := by
      cases hs : rates.mergeSort rateLe with
      | nil => exact absurd hs hlen
      | cons a rest => exact ⟨a, by simp [hs]⟩
    rw [hh] at hsel
    refine ⟨h, hsel, hperm.mem_iff.mp (List.mem_of_mem_head? (by simp [hh])), ?_, ?_⟩
    · intro hex
      obtain ⟨q, hq, hqk⟩ := hex
      have : q ∈ (rates.mergeSort rateLe).filter
          (fun rate => strLe rate.effectiveFrom monthKey) :=
        List.mem_filter.mpr ⟨hperm.mem_iff.mpr hq, hqk⟩
      rw [hflnil] at this
      simp at this
    · intro _ q hq
      exact pairwise_head_le hreflrate _ h hpw hh q (hperm.mem_iff.mpr hq)

/-- Witness for C4 at a concrete two-row table and key. -/
theorem C4_rateFor_greatest_effective_witness :
    ∃ r, selectRates [⟨"2024-01", 5, 20, 40, 5⟩, ⟨"2024-07", 6, 21, 41, 5⟩] "2024-03"
        = some r ∧
      r ∈ [(⟨"2024-01", 5, 20, 40, 5⟩ : TariffRow), ⟨"2024-07", 6, 21, 41, 5⟩] ∧
      ((∃ q ∈ [(⟨"2024-01", 5, 20, 40, 5⟩ : TariffRow), ⟨"2024-07", 6, 21, 41, 5⟩],
          strLe q.effectiveFrom "2024-03" = true) →
        strLe r.effectiveFrom "2024-03" = true ∧
          ∀ q ∈ [(⟨"2024-01", 5, 20, 40, 5⟩ : TariffRow), ⟨"2024-07", 6, 21, 41, 5⟩],
            strLe q.effectiveFrom "2024-03" = true →
              strLe q.effectiveFrom r.effectiveFrom = true) ∧
      ((∀ q ∈ [(⟨"2024-01", 5, 20, 40, 5⟩ : TariffRow), ⟨"2024-07", 6, 21, 41, 5⟩],
          strLe q.effectiveFrom "2024-03" = false) →
        ∀ q ∈ [(⟨"2024-01", 5, 20, 40, 5⟩ : TariffRow), ⟨"2024-07", 6, 21, 41, 5⟩],
          strLe r.effectiveFrom q.effectiveFrom = true) :=
  C4_rateFor_greatest_effective _ _ (by simp)

/-! ## `calculateMonth` (C3) -/

/-- C3 — `calculate` is total (this model is a Lean function, and its value is
characterized below for every input, so no input raises): per identity the
breakdown is the zero-filled placeholder exactly when the spot price or that
identity's usage is unknown, with the corresponding warnings (which may
coexist) emitted exactly for the missing inputs; otherwise the costs are the
claimed `round2` formulas; and an identity with a missing-data warning always
has an all-zero cost breakdown, so a non-zero result and a missing-data
warning for the same identity never coexist. -/
theorem C3_calculate_degrades_to_zero (spotOreInclVat meKWh neighborKWh : Option ℚ)
    (rates : TariffRow) :
    (let c := calculateMonth spotOreInclVat meKWh neighborKWh rates
     let adjusted := spotOreInclVat.map (fun s => s - rates.localDiscountOreInclVat)
     let gridSum := rates.gridTransferOreInclVat + rates.energyTaxOreInclVat +
       rates.norrlandDeductionOreInclVat
     (("MissingJamtkraftPrice" ∈ c.warnings ↔ spotOreInclVat = none) ∧
      ("MissingEaseeUsageMe" ∈ c.warnings ↔ meKWh = none) ∧
      ("MissingEaseeUsageNeighbor" ∈ c.warnings ↔ neighborKWh = none)) ∧
     ((spotOreInclVat = none ∨ meKWh = none) → c.result.me = ⟨adjusted, 0, 0, 0⟩) ∧
     ((spotOreInclVat = none ∨ neighborKWh = none) →
       c.result.neighbor = ⟨adjusted, 0, 0, 0⟩) ∧
     (∀ s u, spotOreInclVat = some s → meKWh = some u →
       c.result.me = ⟨some (round2 (s - rates.localDiscountOreInclVat)),
         round2 (u * (s - rates.localDiscountOreInclVat) / 100),
         round2 (u * gridSum / 100),
         round2 (round2 (u * (s - rates.localDiscountOreInclVat) / 100) +
           round2 (u * gridSum / 100))⟩) ∧
     (∀ s u, spotOreInclVat = some s → neighborKWh = some u →
       c.result.neighbor = ⟨some (round2 (s - rates.localDiscountOreInclVat)),
         round2 (u * (s - rates.localDiscountOreInclVat) / 100),
         round2 (u * gridSum / 100),
         round2 (round2 (u * (s - rates.localDiscountOreInclVat) / 100) +
           round2 (u * gridSum / 100))⟩) ∧
     (("MissingJamtkraftPrice" ∈ c.warnings ∨ "MissingEaseeUsageMe" ∈ c.warnings) →
       c.result.me.elhandelKr = 0 ∧ c.result.me.elnatKr = 0 ∧
         c.result.me.totalKr = 0) ∧
     (("MissingJamtkraftPrice" ∈ c.warnings ∨ "MissingEaseeUsageNeighbor" ∈ c.warnings) →
       c.result.neighbor.elhandelKr = 0 ∧ c.result.neighbor.elnatKr = 0 ∧
         c.result.neighbor.totalKr = 0)) := by
  cases spotOreInclVat <;> cases meKWh <;> cases neighborKWh <;>
    simp [calculateMonth]

/-- The spec's concrete scenario: one tariff row (discount 5, transfer 20,
tax 40, deduction 5), spot 100, usage 10 → adjusted 95, energy 9.50, grid
6.50, total 16.00, no warnings. -/
theorem calculateMonth_concrete_scenario :
    calculateMonth (some 100) (some 10) (some 10) ⟨"2024-01", 5, 20, 40, 5⟩ =
      { inputs := ⟨some 100, some 10, some 10⟩
        appliedRates := ⟨5, 20, 40, 5⟩
        result := ⟨⟨some 95, 19/2, 13/2, 16⟩, ⟨some 95, 19/2, 13/2, 16⟩⟩
        warnings := [] } := by
  have h0 : round2 ((100 : ℚ) - 5) = 95 := by
    unfold round2
    rw [show ((100 : ℚ) - 5) * 100 + 1/2 = 19001/2 by norm_num,
      show (⌊(19001 : ℚ)/2⌋ : ℤ) = 9500 by rw [Int.floor_eq_iff]; norm_num]
    norm_num
  have h1 : round2 ((10 : ℚ) * ((100 : ℚ) - 5) / 100) = 19/2 := by
    unfold round2
    rw [show (10 : ℚ) * ((100 : ℚ) - 5) / 100 * 100 + 1/2 = 1901/2 by norm_num,
      show (⌊(1901 : ℚ)/2⌋ : ℤ) = 950 by rw [Int.floor_eq_iff]; norm_num]
    norm_num
  have h2 : round2 ((10 : ℚ) * ((20 : ℚ) + 40 + 5) / 100) = 13/2 := by
    unfold round2
    rw [show (10 : ℚ) * ((20 : ℚ) + 40 + 5) / 100 * 100 + 1/2 = 1301/2 by norm_num,
      show (⌊(1301 : ℚ)/2⌋ : ℤ) = 650 by rw [Int.floor_eq_iff]; norm_num]
    norm_num
  have h3 : round2 ((19 : ℚ)/2 + 13/2) = 16 := by
    unfold round2
    rw [show ((19 : ℚ)/2 + 13/2) * 100 + 1/2 = 3201/2 by norm_num,
      show (⌊(3201 : ℚ)/2⌋ : ℤ) = 1600 by rw [Int.floor_eq_iff]; norm_num]
    norm_num
  simp [calculateMonth, h0, h1, h2, h3]

/-! ## `fetchWithRetry` (C5, C6) -/

lemma listContainsSub_append (n rest : List Char) :
    listContainsSub n (n ++ rest) = true := by
  cases n with
  | nil =>
    cases rest with
    | nil => rfl
    | cons c cs => simp [listContainsSub, List.isPrefixOf]
  | cons a as =>
    have hpre : (a :: as).isPrefixOf ((a :: as) ++ rest) = true := by
      rw [List.isPrefixOf_iff_prefix]
      exact List.prefix_append _ _
    simp [listContainsSub, hpre]

/-- The wrapped failure's text contains the configured label. -/
lemma wrapFailure_contains_label (label : String) (e : Option JsError) :
    strContainsSub (wrapFailure label e).message label = true := by
  unfold strContainsSub wrapFailure
  cases e <;>
    · simp only [JsError.message]
      rw [String.data_append, String.data_append, List.append_assoc]
      exact listContainsSub_append _ _

lemma fetchLoop_succ (p : RetryPolicy) (attempts : Nat → Except JsError Response)
    (fallback : Except JsError Response) (remaining attempt : Nat) :
    fetchLoop p attempts fallback (remaining + 1) attempt =
      match attempts attempt with
      | .ok response => (.ok response, [.attempt attempt])
      | .error e =>
        if shouldFallback p e then (fallback, [.attempt attempt, .insecureAttempt])
        else if remaining = 0 then
          (.error (wrapFailure p.label (some e)), [.attempt attempt])
        else
          let rest := fetchLoop p attempts fallback remaining (attempt + 1)
          (rest.1, .attempt attempt :: .waitMs (p.retryDelayMs * attempt) :: rest.2) := rfl

lemma fetchLoop_ok (p : RetryPolicy) (attempts : Nat → Except JsError Response)
    (fallback : Except JsError Response) (resp : Response) :
    ∀ gap k start, gap < k →
      (∀ j, start ≤ j → j < start + gap →
        ∃ e, attempts j = .error e ∧ shouldFallback p e = false) →
      attempts (start + gap) = .ok resp →
      fetchLoop p attempts fallback k start =
        (.ok resp, preTrace p.retryDelayMs start gap ++ [.attempt (start + gap)]) := by
  intro gap
  induction gap with
  | zero =>
    intro k start hk _ hok
    obtain ⟨r, rfl⟩ := Nat.exists_eq_add_of_lt hk
    simp only [Nat.add_zero] at hok
    simp [fetchLoop, hok, preTrace]
  | succ g ih =>
    intro k start hk hfails hok
    obtain ⟨r, rfl⟩ := Nat.exists_eq_add_of_lt hk
    obtain ⟨e, he, hnofb⟩ := hfails start (le_refl _) (by omega)
    have hr : ¬(g + 1 + r = 0) := by omega
    have hrest := ih (g + 1 + r) (start + 1) (by omega)
      (fun j hj1 hj2 => hfails j (by omega) (by omega))
      (by rw [show start + 1 + g = start + (g + 1) by omega]; exact hok)
    rw [fetchLoop_succ]
    simp only [he, hnofb, Bool.false_eq_true, if_false, if_neg hr, hrest]
    simp [preTrace, show start + 1 + g = start + (g + 1) by omega]

lemma fetchLoop_allfail (p : RetryPolicy) (attempts : Nat → Except JsError Response)
    (fallback : Except JsError Response) (e : JsError) :
    ∀ k start, 1 ≤ k →
      (∀ j, start ≤ j → j < start + k →
        ∃ e', attempts j = .error e' ∧ shouldFallback p e' = false) →
      attempts (start + k - 1) = .error e →
      fetchLoop p attempts fallback k start =
        (.error (wrapFailure p.label (some e)),
          preTrace p.retryDelayMs start (k - 1) ++ [.attempt (start + k - 1)]) := by
  intro k
  induction k with
  | zero => intro start h; omega
  | succ r ih =>
    intro start _ hfails hlast
    cases r with
    | zero =>
      simp only [Nat.add_sub_cancel] at hlast
      obtain ⟨e', he', hnofb⟩ := hfails start (le_refl _) (by omega)
      rw [hlast] at he'
      cases he'
      simp [fetchLoop, hlast, hnofb, preTrace]
    | succ r' =>
      obtain ⟨e', he', hnofb⟩ := hfails start (le_refl _) (by omega)
      have hrest := ih (start + 1) (by omega)
        (fun j hj1 hj2 => hfails j (by omega) (by omega))
        (by rw [show start + 1 + (r' + 1) - 1 = start + (r' + 1 + 1) - 1 by omega]
            exact hlast)
      have hr : ¬(r' + 1 = 0) := by omega
      rw [fetchLoop_succ]
      simp only [he', hnofb, Bool.false_eq_true, if_false, if_neg hr, hrest]
      simp [preTrace, show start + 1 + (r' + 1) - 1 = start + (r' + 1 + 1) - 1 by omega]

lemma fetchLoop_tls (p : RetryPolicy) (attempts : Nat → Except JsError Response)
    (fallback : Except JsError Response) (e : JsError) :
    ∀ gap k start, gap < k →
      (∀ j, start ≤ j → j < start + gap →
        ∃ e', attempts j = .error e' ∧ shouldFallback p e' = false) →
      attempts (start + gap) = .error e →
      shouldFallback p e = true →
      fetchLoop p attempts fallback k start =
        (fallback, preTrace p.retryDelayMs start gap ++
          [.attempt (start + gap), .insecureAttempt]) := by
  intro gap
  induction gap with
  | zero =>
    intro k start hk _ herr hfb
    obtain ⟨r, rfl⟩ := Nat.exists_eq_add_of_lt hk
    simp only [Nat.add_zero] at herr
    simp [fetchLoop, herr, hfb, preTrace]
  | succ g ih =>
    intro k start hk hfails herr hfb
    obtain ⟨r, rfl⟩ := Nat.exists_eq_add_of_lt hk
    obtain ⟨e', he', hnofb⟩ := hfails start (le_refl _) (by omega)
    have hr : ¬(g + 1 + r = 0) := by omega
    have hrest := ih (g + 1 + r) (start + 1) (by omega)
      (fun j hj1 hj2 => hfails j (by omega) (by omega))
      (by rw [show start + 1 + g = start + (g + 1) by omega]; exact herr) hfb
    rw [fetchLoop_succ]
    simp only [he', hnofb, Bool.false_eq_true, if_false, if_neg hr, hrest]
    simp [preTrace, show start + 1 + g = start + (g + 1) by omega]

/-- C5 — with `retries ≥ 1`: a first success at attempt `i ≤ retries` returns
that attempt's response, with exactly the waits `retryDelayMs × attemptNumber`
between consecutive failed attempts and none after the last event; exhausting
all `retries` attempts without the TLS-fallback condition raises the labelled
failure wrapping the last underlying error, whose text contains the label. -/
theorem C5_retry_backoff_and_label (p : RetryPolicy)
    (attempts : Nat → Except JsError Response) (fallback : Except JsError Response)
    (hr : 1 ≤ p.retries) :
    (∀ i resp, 1 ≤ i → i ≤ p.retries →
      (∀ j, 1 ≤ j → j < i → ∃ e, attempts j = .error e ∧ shouldFallback p e = false) →
      attempts i = .ok resp →
      fetchWithRetry p attempts fallback =
        (.ok resp, preTrace p.retryDelayMs 1 (i - 1) ++ [.attempt i])) ∧
    (∀ e, (∀ j, 1 ≤ j → j ≤ p.retries →
        ∃ e', attempts j = .error e' ∧ shouldFallback p e' = false) →
      attempts p.retries = .error e →
      fetchWithRetry p attempts fallback =
        (.error (wrapFailure p.label (some e)),
          preTrace p.retryDelayMs 1 (p.retries - 1) ++ [.attempt p.retries]) ∧
      strContainsSub (wrapFailure p.label (some e)).message p.label = true) := by
  constructor
  · intro i resp h1 h2 hfails hok
    have := fetchLoop_ok p attempts fallback resp (i - 1) p.retries 1
      (by omega)
      (fun j hj1 hj2 => hfails j hj1 (by omega))
      (by rw [show 1 + (i - 1) = i by omega]; exact hok)
    rw [show 1 + (i - 1) = i by omega] at this
    exact this
  · intro e hfails hlast
    refine ⟨?_, wrapFailure_contains_label _ _⟩
    have := fetchLoop_allfail p attempts fallback e p.retries 1 hr
      (fun j hj1 hj2 => hfails j hj1 (by omega))
      (by rw [show 1 + p.retries - 1 = p.retries by omega]; exact hlast)
    rw [show 1 + p.retries - 1 = p.retries by omega] at this
    exact this

/-- Witness for C5: the default policy (3 retries), attempts that fail twice
with a generic network error and succeed on the third try. -/
theorem C5_retry_backoff_and_label_witness :
    (∀ i resp, 1 ≤ i → i ≤ RetryPolicy.retries { label := "Easee login" } →
      (∀ j, 1 ≤ j → j < i →
        ∃ e, (fun n => if n < 3 then Except.error (JsError.mk "socket hang up" none none)
              else Except.ok (Response.mk 200)) j = .error e ∧
          shouldFallback { label := "Easee login" } e = false) →
      (fun n => if n < 3 then Except.error (JsError.mk "socket hang up" none none)
        else Except.ok (Response.mk 200)) i = .ok resp →
      fetchWithRetry { label := "Easee login" }
          (fun n => if n < 3 then Except.error (JsError.mk "socket hang up" none none)
            else Except.ok (Response.mk 200)) (.ok (Response.mk 200)) =
        (.ok resp, preTrace (RetryPolicy.retryDelayMs { label := "Easee login" }) 1 (i - 1)
          ++ [.attempt i])) ∧
    (∀ e, (∀ j, 1 ≤ j → j ≤ RetryPolicy.retries { label := "Easee login" } →
        ∃ e', (fun n => if n < 3 then Except.error (JsError.mk "socket hang up" none none)
              else Except.ok (Response.mk 200)) j = .error e' ∧
          shouldFallback { label := "Easee login" } e' = false) →
      (fun n => if n < 3 then Except.error (JsError.mk "socket hang up" none none)
        else Except.ok (Response.mk 200)) (RetryPolicy.retries { label := "Easee login" })
          = .error e →
      fetchWithRetry { label := "Easee login" }
          (fun n => if n < 3 then Except.error (JsError.mk "socket hang up" none none)
            else Except.ok (Response.mk 200)) (.ok (Response.mk 200)) =
        (.error (wrapFailure (RetryPolicy.label { label := "Easee login" }) (some e)),
          preTrace (RetryPolicy.retryDelayMs { label := "Easee login" }) 1
            (RetryPolicy.retries { label := "Easee login" } - 1)
          ++ [.attempt (RetryPolicy.retries { label := "Easee login" })]) ∧
      strContainsSub (wrapFailure (RetryPolicy.label { label := "Easee login" }) (some e)).message
        (RetryPolicy.label { label := "Easee login" }) = true) :=
  C5_retry_backoff_and_label { label := "Easee login" }
    (fun n => if n < 3 then Except.error (JsError.mk "socket hang up" none none)
      else Except.ok (Response.mk 200)) (.ok (Response.mk 200)) (by decide)

/-- C6 — when `allowInsecureTls` is set and attempt `i` fails with the
"certificate issuer unknown" transport code (earlier attempts having failed
without it), the trace ends with exactly one insecure fallback request issued
immediately after that attempt — no further waits or normal attempts — and
the call's result is the fallback request's outcome. -/
theorem C6_insecure_tls_fallback (p : RetryPolicy)
    (attempts : Nat → Except JsError Response) (fallback : Except JsError Response)
    (i : Nat) (e : JsError) (hTls : p.allowInsecureTls = true)
    (h1 : 1 ≤ i) (h2 : i ≤ p.retries)
    (hpre : ∀ j, 1 ≤ j → j < i →
      ∃ e', attempts j = .error e' ∧ shouldFallback p e' = false)
    (hi : attempts i = .error e)
    (hcode : tlsCodeOf e = some "UNABLE_TO_GET_ISSUER_CERT_LOCALLY") :
    fetchWithRetry p attempts fallback =
      (fallback, preTrace p.retryDelayMs 1 (i - 1) ++ [.attempt i, .insecureAttempt]) := by
  have hfb : shouldFallback p e = true := by
    unfold shouldFallback
    rw [hTls, hcode]
    simp
  have := fetchLoop_tls p attempts fallback e (i - 1) p.retries 1
    (by omega)
    (fun j hj1 hj2 => hpre j hj1 (by omega))
    (by rw [show 1 + (i - 1) = i by omega]; exact hi) hfb
  rw [show 1 + (i - 1) = i by omega] at this
  exact this

/-- Witness for C6: `allowInsecureTls` set, the first attempt failing with the
issuer-unknown cause code, fallback succeeding. -/
theorem C6_insecure_tls_fallback_witness :
    fetchWithRetry { label := "Jamtkraft fetch", allowInsecureTls := true }
        (fun _ => Except.error (JsError.mk "fetch failed" none
          (some (JsError.mk "TLS" (some "UNABLE_TO_GET_ISSUER_CERT_LOCALLY") none))))
        (.ok (Response.mk 200)) =
      (.ok (Response.mk 200),
        preTrace (RetryPolicy.retryDelayMs { label := "Jamtkraft fetch", allowInsecureTls := true })
          1 (1 - 1) ++ [.attempt 1, .insecureAttempt]) :=
  C6_insecure_tls_fallback { label := "Jamtkraft fetch", allowInsecureTls := true }
    (fun _ => Except.error (JsError.mk "fetch failed" none
      (some (JsError.mk "TLS" (some "UNABLE_TO_GET_ISSUER_CERT_LOCALLY") none))))
    (.ok (Response.mk 200)) 1
    (JsError.mk "fetch failed" none
      (some (JsError.mk "TLS" (some "UNABLE_TO_GET_ISSUER_CERT_LOCALLY") none)))
    rfl (by decide) (by decide) (fun j hj1 hj2 => absurd (lt_of_lt_of_le hj2 hj1) (lt_irrefl j))
    rfl rfl

/-! ## Extraction strategy chain (C7) -/

lemma parseNextData_ne_nil {doc : Doc} {r : SpotTable}
    (h : parseNextData doc = .ok (some r)) : r ≠ [] := by
  unfold parseNextData at h
  split at h
  · exact absurd h (by simp)
  · split at h
    · exact absurd h (by simp)
    · split at h
      · exact absurd h (by simp)
      · split at h
        · exact absurd h (by simp)
        · split at h
          · exact absurd h (by simp)
          · split at h
            · exact absurd h (by simp)
            · split at h
              · exact absurd h (by simp)
              · split at h
                · exact absurd h (by simp)
                · rename_i hne
                  obtain rfl := Option.some.inj (Except.ok.inj h)
                  simpa using hne

lemma parseTable_ne_nil {doc : Doc} {r : SpotTable} (h : parseTable doc = some r) :
    r ≠ [] := by
  unfold parseTable at h
  dsimp only at h
  split at h
  · exact absurd h (by simp)
  · split at h
    · exact absurd h (by simp)
    · rename_i hne
      cases h
      simpa using hne

lemma parseText_ne_nil {doc : Doc} {r : SpotTable} (h : parseText doc = some r) :
    r ≠ [] := by
  unfold parseText at h
  dsimp only at h
  split at h
  · exact absurd h (by simp)
  · split at h
    · exact absurd h (by simp)
    · rename_i hne
      cases h
      simpa using hne

/-- C7, amended — the strategy chain tries embedded data, then the rendered
table, then free text, in that order, accepting the first strategy that
yields a (necessarily non-empty) table without consulting later strategies;
but the embedded-data strategy throws a `TypeError` on a shape-mismatched
payload (a non-array `content`, a `null` content element, a truthy string
row), and the throw escapes the chain, aborting extraction without
consulting the later strategies; extraction fails with the
`"Could not parse Jamtkraft Elområde 2 data"` error if and only if the
embedded-data strategy neither throws nor yields a result and the other two
strategies also yield none; and every accepted result is non-empty. -/
theorem C7_extraction_amended (doc : Doc) :
    (∀ e, parseNextData doc = .error e →
      parseJamtkraftDoc doc = .error (.typeError e)) ∧
    (∀ r, parseNextData doc = .ok (some r) → parseJamtkraftDoc doc = .ok r) ∧
    (parseNextData doc = .ok none → ∀ r, parseTable doc = some r →
      parseJamtkraftDoc doc = .ok r) ∧
    (parseNextData doc = .ok none → parseTable doc = none →
      ∀ r, parseText doc = some r → parseJamtkraftDoc doc = .ok r) ∧
    (parseJamtkraftDoc doc = .error .extractionFailed ↔
      parseNextData doc = .ok none ∧ parseTable doc = none ∧
        parseText doc = none) ∧
    (∀ r, parseJamtkraftDoc doc = .ok r → r ≠ []) := by
  refine ⟨?_, ?_, ?_, ?_, ?_, ?_⟩
  · intro e h
    unfold parseJamtkraftDoc
    rw [h]
  · intro r h
    unfold parseJamtkraftDoc
    rw [h]
  · intro h1 r h
    unfold parseJamtkraftDoc
    rw [h1, h]
  · intro h1 h2 r h
    unfold parseJamtkraftDoc
    rw [h1, h2, h]
  · constructor
    · intro h
      unfold parseJamtkraftDoc at h
      cases h1 : parseNextData doc with
      | error e => rw [h1] at h; exact absurd h (by simp)
      | ok o =>
        cases o with
        | some r => rw [h1] at h; exact absurd h (by simp)
        | none =>
          rw [h1] at h
          cases h2 : parseTable doc with
          | some r => rw [h2] at h; exact absurd h (by simp)
          | none =>
            rw [h2] at h
            cases h3 : parseText doc with
            | some r => rw [h3] at h; exact absurd h (by simp)
            | none => exact ⟨rfl, rfl, rfl⟩
    · intro ⟨h1, h2, h3⟩
      unfold parseJamtkraftDoc
      rw [h1, h2, h3]
  · intro r h
    unfold parseJamtkraftDoc at h
    cases h1 : parseNextData doc with
    | error e => rw [h1] at h; exact absurd h (by simp)
    | ok o =>
      cases o with
      | some r' =>
        rw [h1] at h
        cases h
        exact parseNextData_ne_nil h1
      | none =>
        rw [h1] at h
        cases h2 : parseTable doc with
        | some r' =>
          rw [h2] at h
          cases h
          exact parseTable_ne_nil h2
        | none =>
          rw [h2] at h
          cases h3 : parseText doc with
          | some r' =>
            rw [h3] at h
            cases h
            exact parseText_ne_nil h3
          | none => rw [h3] at h; exact absurd h (by simp)

/-- Counterexample to C7 as stated: on this document strategy 1 throws a
`TypeError` (`block.inlineTable` on a `null` content element) that escapes
the chain — extraction fails with the `TypeError` rather than with the
`ExtractionFailed` error — even though the rendered-table strategy holds a
(non-empty) result it is never asked for. -/
theorem C7_extraction_counterexample :
    parseJamtkraftDoc c7ThrowDoc = .error (.typeError .blockInlineTable) ∧
    (parseTable c7ThrowDoc).isSome = true ∧
    parseJamtkraftDoc c7ThrowDoc ≠ .error .extractionFailed :=
  ⟨rfl, by decide, by
    intro hcontra
    rw [show parseJamtkraftDoc c7ThrowDoc =
        .error (.typeError .blockInlineTable) from rfl] at hcontra
    rw [Except.error.injEq] at hcontra
    cases hcontra⟩

/-! ## Year-row harvesting (C8) -/

lemma objGet_nil {α β : Type} [DecidableEq α] (k : α) :
    objGet ([] : List (α × β)) k = none := rfl

lemma objGet_cons {α β : Type} [DecidableEq α] (a : α) (b : β) (l : List (α × β)) (k : α) :
    objGet ((a, b) :: l) k = if a = k then some b else objGet l k := by
  by_cases h : a = k <;> simp [objGet, List.find?, h]

lemma objSet_cons {α β : Type} [DecidableEq α] (a : α) (b : β) (l : List (α × β))
    (k : α) (v : β) :
    objSet ((a, b) :: l) k v =
      if a = k then (a, v) :: l else (a, b) :: objSet l k v := rfl

lemma objGet_objSet_isSome {α β : Type} [DecidableEq α]
    (l : List (α × β)) (k k' : α) (v : β) :
    (objGet (objSet l k v) k').isSome ↔ k = k' ∨ (objGet l k').isSome := by
  induction l with
  | nil =>
    by_cases h : k = k' <;> simp [objSet, objGet_cons, objGet_nil, h]
  | cons p rest ih =>
    obtain ⟨a, b⟩ := p
    rw [objSet_cons]
    by_cases ha : a = k
    · rw [if_pos ha]
      by_cases ha' : a = k'
      · rw [objGet_cons, objGet_cons, if_pos ha', if_pos ha']
        simp [ha ▸ ha']
      · rw [objGet_cons, objGet_cons, if_neg ha', if_neg ha']
        constructor
        · exact fun h => Or.inr h
        · rintro (h | h)
          · exact absurd (ha.trans h) ha'
          · exact h
    · rw [if_neg ha]
      by_cases ha' : a = k'
      · rw [objGet_cons, objGet_cons, if_pos ha', if_pos ha']
        simp
      · rw [objGet_cons, objGet_cons, if_neg ha', if_neg ha']
        exact ih

lemma objSet_ne_nil {α β : Type} [DecidableEq α] (l : List (α × β)) (k : α) (v : β) :
    objSet l k v ≠ [] := by
  cases l with
  | nil => simp [objSet]
  | cons p rest =>
    rw [show objSet (p :: rest) k v =
      if p.1 = k then (p.1, v) :: rest else p :: objSet rest k v from rfl]
    split <;> simp

lemma objGet_of_ne_nil {α β : Type} [DecidableEq α] (l : List (α × β)) (h : l ≠ []) :
    ∃ k, (objGet l k).isSome = true := by
  cases l with
  | nil => exact absurd rfl h
  | cons p rest =>
    exact ⟨p.1, by obtain ⟨a, b⟩ := p; simp [objGet_cons]⟩

/-- The generic shape of both strategies' row-harvesting fold: rows whose
year does not parse are skipped, every other row writes its (possibly empty)
month map under its year. A key is present in the fold's result iff it was
present initially or some row's year parsed to it. -/
lemma foldl_yearRows_lookup {ρ : Type} (yearOf : ρ → Option ℚ)
    (mvOf : ρ → List (Int × ℚ)) :
    ∀ (rows : List ρ) (acc : SpotTable) (y : ℚ),
      (objGet (rows.foldl (fun acc row =>
          match yearOf row with
          | none => acc
          | some year => objSet acc year (mvOf row)) acc) y).isSome ↔
        (objGet acc y).isSome ∨ y ∈ rows.filterMap yearOf := by
  intro rows
  induction rows with
  | nil => simp
  | cons r rs ih =>
    intro acc y
    cases hy : yearOf r with
    | none =>
      simp only [List.foldl_cons, hy]
      rw [ih]
      simp [List.filterMap_cons, hy]
    | some yr =>
      simp only [List.foldl_cons, hy]
      rw [ih, objGet_objSet_isSome]
      simp only [List.filterMap_cons, hy, List.mem_cons]
      constructor
      · rintro ((h | h) | h)
        · exact Or.inr (Or.inl h.symm)
        · exact Or.inl h
        · exact Or.inr (Or.inr h)
      · rintro (h | h | h)
        · exact Or.inl (Or.inr h)
        · exact Or.inl (Or.inl h.symm)
        · exact Or.inr h

/-- The fold's result is empty iff it started empty and no row's year parsed. -/
lemma foldl_yearRows_ne_nil {ρ : Type} (yearOf : ρ → Option ℚ)
    (mvOf : ρ → List (Int × ℚ)) (rows : List ρ) :
    (rows.foldl (fun acc row =>
        match yearOf row with
        | none => acc
        | some year => objSet acc year (mvOf row)) []) ≠ [] ↔
      ∃ row ∈ rows, (yearOf row).isSome = true := by
  constructor
  · intro hne
    obtain ⟨k, hk⟩ := objGet_of_ne_nil _ hne
    rcases (foldl_yearRows_lookup yearOf mvOf rows [] k).mp hk with h | h
    · rw [objGet_nil] at h
      simp at h
    · obtain ⟨row, hrow, hyr⟩ := List.mem_filterMap.mp h
      exact ⟨row, hrow, by simp [hyr]⟩
  · rintro ⟨row, hrow, hyr⟩
    obtain ⟨yr, hyr'⟩ := Option.isSome_iff_exists.mp hyr
    intro hnil
    have hsome : (objGet ((rows.foldl (fun acc row =>
        match yearOf row with
        | none => acc
        | some year => objSet acc year (mvOf row)) [])) yr).isSome := by
      rw [foldl_yearRows_lookup]
      exact Or.inr (List.mem_filterMap.mpr ⟨row, hrow, hyr'⟩)
    rw [hnil, objGet_nil] at hsome
    simp at hsome

/-- Over all-array data rows the loop never throws and computes exactly the
row-harvesting fold. -/
lemma nextRowsLoop_cells (mh : List String) :
    ∀ (rows : List (List (Option String))) (acc : SpotTable),
      nextRowsLoop mh (rows.map NextRow.cells) acc =
        .ok (rows.foldl (fun acc row =>
          match nextRowYear row with
          | none => acc
          | some year => objSet acc year (nextMonthValues mh row)) acc) := by
  intro rows
  induction rows with
  | nil => intro acc; rfl
  | cons l rest ih =>
    intro acc
    simp only [List.map_cons, List.foldl_cons]
    have hstep : nextRowsLoop mh (NextRow.cells l :: rest.map NextRow.cells) acc =
        nextRowsLoop mh (rest.map NextRow.cells) (nextCellsStep mh acc l) := rfl
    rw [hstep, ih]
    rfl

/-- C8, amended — in the structured-embedded-data and rendered-table
strategies, a year row contributes an entry exactly when its **year** cell
parses to a finite number: the entry's month map may be empty when no month
cell parses (the source writes `rows[year] = monthValues` unconditionally),
and a strategy's result is accepted exactly when at least one year row was
captured in this sense, even if no month value parsed anywhere. (The
embedded-data side is stated over array header and data rows — the fragment
on which the strategy harvests rather than throws; C7's artifacts cover the
throwing shapes.) -/
theorem C8_year_rows_amended (doc : Doc) :
    (∀ nd blocks tables t (headerRow : List (Option String))
        (dataRows : List (List (Option String))),
      doc.nextData = some nd →
      nd.content = .arr blocks →
      blockTables blocks = .ok tables →
      tables.find? nextTablePred = some t →
      t.rows = .cells headerRow :: dataRows.map NextRow.cells →
      (((∃ rows, parseNextData doc = .ok (some rows)) ↔
          ∃ row ∈ dataRows, (nextRowYear row).isSome = true) ∧
        ∀ rows, parseNextData doc = .ok (some rows) →
          ∀ y : ℚ, (objGet rows y).isSome ↔ y ∈ dataRows.filterMap nextRowYear)) ∧
    ((doc.tables.filter (fun t => t.caption = "Elområde 2")) ≠ [] →
      (((parseTable doc).isSome ↔
          ∃ cells ∈ ((doc.tables.filter (fun t => t.caption = "Elområde 2")).map
            (·.tbodyRows)).flatten, (tableRowYear cells).isSome = true) ∧
        ∀ rows, parseTable doc = some rows →
          ∀ y : ℚ, (objGet rows y).isSome ↔
            y ∈ (((doc.tables.filter (fun t => t.caption = "Elområde 2")).map
              (·.tbodyRows)).flatten).filterMap tableRowYear)) := by
  constructor
  · intro nd blocks tables t headerRow dataRows hnd hcontent hblocks hfind hrows
    have hpn : parseNextData doc =
        .ok (if (dataRows.foldl (fun rows row =>
            match nextRowYear row with
            | none => rows
            | some year => objSet rows year
                (nextMonthValues ((headerRow.drop 1).map
                  (fun cell => jsTrim (cell.getD ""))) row)) []).isEmpty
          then none
          else some (dataRows.foldl (fun rows row =>
            match nextRowYear row with
            | none => rows
            | some year => objSet rows year
                (nextMonthValues ((headerRow.drop 1).map
                  (fun cell => jsTrim (cell.getD ""))) row)) [])) := by
      unfold parseNextData
      rw [hnd]
      dsimp only
      rw [hcontent]
      dsimp only
      rw [hblocks]
      dsimp only
      rw [hfind]
      dsimp only
      rw [hrows]
      dsimp only [headerCellsOf]
      rw [nextRowsLoop_cells]
    have hnil := foldl_yearRows_ne_nil nextRowYear
      (nextMonthValues ((headerRow.drop 1).map (fun cell => jsTrim (cell.getD ""))))
      dataRows
    constructor
    · by_cases hemp : (dataRows.foldl (fun rows row =>
          match nextRowYear row with
          | none => rows
          | some year => objSet rows year
              (nextMonthValues ((headerRow.drop 1).map
                (fun cell => jsTrim (cell.getD ""))) row)) []).isEmpty
      · rw [hpn, if_pos hemp]
        constructor
        · rintro ⟨rows, hr⟩
          exact absurd hr (by simp)
        · intro hex
          exfalso
          rw [List.isEmpty_iff] at hemp
          exact (hnil.mpr hex) hemp
      · rw [hpn, if_neg hemp]
        constructor
        · intro _
          exact hnil.mp (fun h => hemp (List.isEmpty_iff.mpr h))
        · intro _
          exact ⟨_, rfl⟩
    · intro rows hrowsEq y
      rw [hpn] at hrowsEq
      split at hrowsEq
      · exact absurd hrowsEq (by simp)
      · obtain rfl := Option.some.inj (Except.ok.inj hrowsEq)
        rw [foldl_yearRows_lookup nextRowYear
          (nextMonthValues ((headerRow.drop 1).map (fun cell => jsTrim (cell.getD ""))))]
        simp [objGet_nil]
  · intro hmatch
    have hempf : (doc.tables.filter (fun t => t.caption = "Elområde 2")).isEmpty = false := by
      rw [List.isEmpty_eq_false_iff_exists_mem]
      cases hm : doc.tables.filter (fun t => t.caption = "Elområde 2") with
      | nil => exact absurd hm hmatch
      | cons a rest => exact ⟨a, by simp⟩
    have hpt : parseTable doc =
        (if ((((doc.tables.filter (fun t => t.caption = "Elområde 2")).map
            (·.tbodyRows)).flatten).foldl (fun rows cells =>
            match tableRowYear cells with
            | none => rows
            | some year => objSet rows year
                (tableMonthValues (((doc.tables.filter
                  (fun t => t.caption = "Elområde 2")).map (·.theadCells)).flatten)
                  cells)) []).isEmpty
          then none
          else some ((((doc.tables.filter (fun t => t.caption = "Elområde 2")).map
            (·.tbodyRows)).flatten).foldl (fun rows cells =>
            match tableRowYear cells with
            | none => rows
            | some year => objSet rows year
                (tableMonthValues (((doc.tables.filter
                  (fun t => t.caption = "Elområde 2")).map (·.theadCells)).flatten)
                  cells)) [])) := by
      unfold parseTable
      dsimp only
      rw [hempf]
      simp only [Bool.false_eq_true, if_false]
    have hnil := foldl_yearRows_ne_nil tableRowYear
      (tableMonthValues (((doc.tables.filter
        (fun t => t.caption = "Elområde 2")).map (·.theadCells)).flatten))
      ((((doc.tables.filter (fun t => t.caption = "Elområde 2")).map
        (·.tbodyRows)).flatten))
    constructor
    · rw [hpt]
      by_cases hemp : ((((doc.tables.filter (fun t => t.caption = "Elområde 2")).map
          (·.tbodyRows)).flatten).foldl (fun rows cells =>
          match tableRowYear cells with
          | none => rows
          | some year => objSet rows year
              (tableMonthValues (((doc.tables.filter
                (fun t => t.caption = "Elområde 2")).map (·.theadCells)).flatten)
                cells)) []).isEmpty
      · rw [if_pos hemp]
        simp only [Option.isSome_none, Bool.false_eq_true, false_iff]
        rw [List.isEmpty_iff] at hemp
        rw [← hnil]
        exact fun hne => hne hemp
      · rw [if_neg hemp]
        simp only [Option.isSome_some, true_iff]
        exact hnil.mp (fun h => hemp (List.isEmpty_iff.mpr h))
    · intro rows hrowsEq y
      rw [hpt] at hrowsEq
      split at hrowsEq
      · exact absurd hrowsEq (by simp)
      · cases hrowsEq
        rw [foldl_yearRows_lookup tableRowYear
          (tableMonthValues (((doc.tables.filter
            (fun t => t.caption = "Elområde 2")).map (·.theadCells)).flatten))]
        simp [objGet_nil]

/-- Counterexample to C8 as stated: in both strategies a single data row whose
year parses but whose only month cell is unparseable still contributes an
(empty) entry, and the strategy's result is accepted. -/
theorem C8_year_rows_counterexample :
    ((parseNextData c8NextDoc).toOption.join).isSome = true ∧
    ((parseNextData c8NextDoc).toOption.join).map (fun rows => rows.map Prod.snd) =
      some [[]] ∧
    (parseTable c8TableDoc).isSome = true ∧
    (parseTable c8TableDoc).map (fun rows => rows.map Prod.snd) = some [[]] :=
  ⟨by decide, by decide, by decide, by decide⟩

/-! ## Easee monthly usage (C9) -/

lemma foldl_usage_lookup :
    ∀ (body : List EaseeEntry) (acc : List (String × Option ℚ)) (k : String),
      (objGet (body.foldl (fun usage entry =>
          if entryTruthy entry.year && entryTruthy entry.month then
            objSet usage (toMonthKey (entry.year.getD 0) (entry.month.getD 0))
              entry.totalEnergyUsage
          else usage) acc) k).isSome ↔
        (objGet acc k).isSome ∨ ∃ e ∈ body, entryTruthy e.year = true ∧
          entryTruthy e.month = true ∧ toMonthKey (e.year.getD 0) (e.month.getD 0) = k := by
  intro body
  induction body with
  | nil => simp
  | cons e es ih =>
    intro acc k
    by_cases hc : entryTruthy e.year && entryTruthy e.month
    · simp only [List.foldl_cons, hc, if_true]
      rw [ih, objGet_objSet_isSome]
      simp only [Bool.and_eq_true] at hc
      constructor
      · rintro ((h | h) | h)
        · exact Or.inr ⟨e, by simp, hc.1, hc.2, h⟩
        · exact Or.inl h
        · obtain ⟨e', he', h1, h2, h3⟩ := h
          exact Or.inr ⟨e', by simp [he'], h1, h2, h3⟩
      · rintro (h | h)
        · exact Or.inl (Or.inr h)
        · obtain ⟨e', he', h1, h2, h3⟩ := h
          rcases List.mem_cons.mp he' with rfl | he''
          · exact Or.inl (Or.inl h3)
          · exact Or.inr ⟨e', he'', h1, h2, h3⟩
    · simp only [List.foldl_cons, hc, Bool.false_eq_true, if_false]
      rw [ih]
      constructor
      · rintro (h | h)
        · exact Or.inl h
        · obtain ⟨e', he', h1, h2, h3⟩ := h
          exact Or.inr ⟨e', by simp [he'], h1, h2, h3⟩
      · rintro (h | h)
        · exact Or.inl h
        · obtain ⟨e', he', h1, h2, h3⟩ := h
          rcases List.mem_cons.mp he' with rfl | he''
          · simp [h1, h2] at hc
          · exact Or.inr ⟨e', he'', h1, h2, h3⟩

/-- C9, amended — `monthlyUsage` fails on a non-success HTTP status; an entry
is kept only when **both** its `year` and its `month` are truthy (present and
non-zero) — an entry lacking either one is dropped silently — and a month key
appears in the resulting series exactly when some kept entry's
`toMonthKey(year, month)` equals it. -/
theorem C9_usage_entries_amended (userId : ℚ) (http : EaseeUsageHttp) :
    (responseOk http.status = false →
      fetchEaseeMonthlyUsage userId (.ok http) =
        .error ("Easee API failed for " ++ toString userId ++ " with " ++
          toString http.status)) ∧
    (responseOk http.status = true →
      ∃ usage, fetchEaseeMonthlyUsage userId (.ok http) = .ok usage ∧
        ∀ k : String, (objGet usage k).isSome ↔
          ∃ e ∈ http.body, entryTruthy e.year = true ∧ entryTruthy e.month = true ∧
            toMonthKey (e.year.getD 0) (e.month.getD 0) = k) := by
  constructor
  · intro hbad
    unfold fetchEaseeMonthlyUsage
    dsimp only
    rw [hbad]
    rfl
  · intro hok
    refine ⟨_, by unfold fetchEaseeMonthlyUsage; dsimp only; rw [hok]; rfl, ?_⟩
    intro k
    rw [foldl_usage_lookup]
    simp [objGet_nil]

/-- Witness for C9 (amended): a success response with one complete entry and
one entry lacking only its month. -/
theorem C9_usage_entries_amended_witness :
    (responseOk (EaseeUsageHttp.mk 200 [⟨some 2024, some 3, some 5⟩,
        ⟨some 2024, none, some 7⟩]).status = false →
      fetchEaseeMonthlyUsage 42 (.ok (EaseeUsageHttp.mk 200 [⟨some 2024, some 3, some 5⟩,
          ⟨some 2024, none, some 7⟩])) =
        .error ("Easee API failed for " ++ toString (42 : ℚ) ++ " with " ++
          toString (EaseeUsageHttp.mk 200 [⟨some 2024, some 3, some 5⟩,
            ⟨some 2024, none, some 7⟩]).status)) ∧
    (responseOk (EaseeUsageHttp.mk 200 [⟨some 2024, some 3, some 5⟩,
        ⟨some 2024, none, some 7⟩]).status = true →
      ∃ usage, fetchEaseeMonthlyUsage 42 (.ok (EaseeUsageHttp.mk 200
          [⟨some 2024, some 3, some 5⟩, ⟨some 2024, none, some 7⟩])) = .ok usage ∧
        ∀ k : String, (objGet usage k).isSome ↔
          ∃ e ∈ (EaseeUsageHttp.mk 200 [⟨some 2024, some 3, some 5⟩,
              ⟨some 2024, none, some 7⟩]).body,
            entryTruthy e.year = true ∧ entryTruthy e.month = true ∧
              toMonthKey (e.year.getD 0) (e.month.getD 0) = k) :=
  C9_usage_entries_amended 42 (EaseeUsageHttp.mk 200 [⟨some 2024, some 3, some 5⟩,
    ⟨some 2024, none, some 7⟩])

/-- Counterexample to C9 as stated: an entry lacking only its month (its year
is present) is silently dropped — the resulting series is empty — although
the claim says only entries lacking both fields are dropped and every other
entry appears. -/
theorem C9_usage_entries_counterexample :
    fetchEaseeMonthlyUsage 1 (.ok ⟨200, [⟨some 2024, none, some 5⟩]⟩) = .ok [] := rfl

/-! ## Failure path of the run (C2) -/

/-- C2, amended — when the fetch phase fails at any step, the run still
completes and produces a snapshot (persisted to both targets) whose `months`,
`identities` and `rates` are exactly the prior snapshot's; the whole `meta`
block is refreshed: `lastRunStatus = "FAIL"`, `lastError` the failure
message, and `updatedAtUtc` the run timestamp (this third update is what the
original claim's "only" omitted). -/
theorem C2_fetch_failure_preserves_months (ledger : Ledger) (env : FetchEnv)
    (now : NowDate) (nowIso : String) (e : String)
    (h : fetchPhase ledger.identities env = .error e) :
    runMain ledger env now nowIso =
      some { ledger with meta := ⟨nowIso, "FAIL", some e⟩ } ∧
    ∀ out, runMain ledger env now nowIso = some out →
      out.months = ledger.months ∧ out.identities = ledger.identities ∧
      out.rates = ledger.rates ∧ out.meta.lastRunStatus = "FAIL" ∧
      out.meta.lastError = some e ∧ out.meta.updatedAtUtc = nowIso := by
  have hrun : runMain ledger env now nowIso =
      some { ledger with meta := ⟨nowIso, "FAIL", some e⟩ } := by
    unfold runMain
    rw [h]
  refine ⟨hrun, ?_⟩
  intro out hout
  rw [hrun] at hout
  cases hout
  exact ⟨rfl, rfl, rfl, rfl, rfl, rfl⟩

/-- Witness for C2 at a concrete ledger and a failing tariff fetch. -/
theorem C2_fetch_failure_preserves_months_witness :
    runMain c2Ledger c2FailEnv ⟨2025, 3⟩ "2025-03-01T00:00:00.000Z" =
      some { c2Ledger with meta := ⟨"2025-03-01T00:00:00.000Z", "FAIL", some "boom"⟩ } ∧
    ∀ out, runMain c2Ledger c2FailEnv ⟨2025, 3⟩ "2025-03-01T00:00:00.000Z" = some out →
      out.months = c2Ledger.months ∧ out.identities = c2Ledger.identities ∧
      out.rates = c2Ledger.rates ∧ out.meta.lastRunStatus = "FAIL" ∧
      out.meta.lastError = some "boom" ∧
      out.meta.updatedAtUtc = "2025-03-01T00:00:00.000Z" :=
  C2_fetch_failure_preserves_months c2Ledger c2FailEnv ⟨2025, 3⟩
    "2025-03-01T00:00:00.000Z" "boom" rfl

/-- Counterexample to C2 as stated: on a failed run, `meta.updatedAtUtc` is
also updated (to the run timestamp), so `lastRunStatus` and `lastError` are
not the only fields that change. -/
theorem C2_fetch_failure_counterexample :
    (runMain c2Ledger c2FailEnv ⟨2025, 3⟩ "2025-03-01T00:00:00.000Z").map
        (fun out => out.meta.updatedAtUtc) = some "2025-03-01T00:00:00.000Z" ∧
    (runMain c2Ledger c2FailEnv ⟨2025, 3⟩ "2025-03-01T00:00:00.000Z").map
        (fun out => out.meta.updatedAtUtc) ≠ some c2Ledger.meta.updatedAtUtc :=
  ⟨rfl, by decide⟩

/-! ## Decimal printing round-trips through `Number` parsing (for C1/C10)

`toMonthKey` renders numbers with `String(...)` (modelled by Lean's decimal
`toString`, which agrees with JS for integers) and `parseMonthKey` reads them
back with `Number(...)`; the walk over months needs that round trip. -/

lemma toDigitsCore_eq_general :
    ∀ (n : Nat), ∀ (fuel : Nat) (ds : List Char), n < fuel →
      Nat.toDigitsCore 10 fuel n ds = Nat.toDigitsCore 10 (n + 1) n [] ++ ds := by
  intro n
  induction n using Nat.strong_induction_on with
  | _ n ih =>
    intro fuel ds hfuel
    obtain ⟨f, rfl⟩ : ∃ f, fuel = f + 1 := ⟨fuel - 1, by omega⟩
    by_cases hdiv : n / 10 = 0
    · simp [Nat.toDigitsCore, hdiv]
    · have hlt : n / 10 < n := Nat.div_lt_self (by omega) (by omega)
      have h1 : Nat.toDigitsCore 10 (f + 1) n ds =
          Nat.toDigitsCore 10 f (n / 10) (Nat.digitChar (n % 10) :: ds) := by
        simp [Nat.toDigitsCore, hdiv]
      have h2 : Nat.toDigitsCore 10 (n + 1) n [] =
          Nat.toDigitsCore 10 n (n / 10) [Nat.digitChar (n % 10)] := by
        simp [Nat.toDigitsCore, hdiv]
      rw [h1, h2, ih (n / 10) hlt f _ (by omega), ih (n / 10) hlt n _ (by omega),
        List.append_assoc]
      rfl

/-- One-step unfolding of `Nat.toDigits 10`. -/
lemma toDigits_step (n : Nat) :
    Nat.toDigits 10 n =
      (if n / 10 = 0 then [Nat.digitChar (n % 10)]
       else Nat.toDigits 10 (n / 10) ++ [Nat.digitChar (n % 10)]) := by
  by_cases hdiv : n / 10 = 0
  · simp [Nat.toDigits, Nat.toDigitsCore, hdiv]
  · have h1 : Nat.toDigits 10 n =
        Nat.toDigitsCore 10 n (n / 10) [Nat.digitChar (n % 10)] := by
      simp [Nat.toDigits, Nat.toDigitsCore, hdiv]
    rw [h1, toDigitsCore_eq_general (n / 10) n _
      (by exact Nat.div_lt_self (by omega) (by omega))]
    simp [Nat.toDigits, hdiv]

lemma digitChar_isDigit (m : Nat) (h : m < 10) : (Nat.digitChar m).isDigit = true := by
  interval_cases m <;> decide

lemma digitChar_val (m : Nat) (h : m < 10) :
    (Nat.digitChar m).toNat - '0'.toNat = m := by
  interval_cases m <;> decide

lemma toDigits_all_digit (n : Nat) : ∀ c ∈ Nat.toDigits 10 n, c.isDigit = true := by
  induction n using Nat.strong_induction_on with
  | _ n ih =>
    rw [toDigits_step]
    by_cases hdiv : n / 10 = 0
    · simp only [hdiv, if_true]
      intro c hc
      rw [List.mem_singleton] at hc
      subst hc
      exact digitChar_isDigit _ (Nat.mod_lt _ (by omega))
    · simp only [hdiv, if_false]
      intro c hc
      rcases List.mem_append.mp hc with hc | hc
      · exact ih (n / 10) (Nat.div_lt_self (by omega) (by omega)) c hc
      · rw [List.mem_singleton] at hc
        subst hc
        exact digitChar_isDigit _ (Nat.mod_lt _ (by omega))

lemma toDigits_ne_nil (n : Nat) : Nat.toDigits 10 n ≠ [] := by
  rw [toDigits_step]
  split <;> simp

lemma digitsVal_append_singleton (xs : List Char) (c : Char) :
    digitsVal (xs ++ [c]) = 10 * digitsVal xs + (c.toNat - '0'.toNat) := by
  unfold digitsVal
  rw [List.foldl_append]
  rfl

lemma digitsVal_toDigits (n : Nat) : digitsVal (Nat.toDigits 10 n) = n := by
  induction n using Nat.strong_induction_on with
  | _ n ih =>
    rw [toDigits_step]
    by_cases hdiv : n / 10 = 0
    · simp only [hdiv, if_true]
      have hn : n < 10 := by omega
      show digitsVal ([] ++ [Nat.digitChar (n % 10)]) = n
      rw [digitsVal_append_singleton, digitChar_val _ (Nat.mod_lt _ (by omega))]
      unfold digitsVal
      simp [Nat.mod_eq_of_lt hn]
    · simp only [hdiv, if_false]
      rw [digitsVal_append_singleton, ih (n / 10) (Nat.div_lt_self (by omega) (by omega)),
        digitChar_val _ (Nat.mod_lt _ (by omega))]
      omega

/-- `parseNumberChars` on a non-empty all-digit list is its decimal value. -/
lemma parseNumberChars_digits (cs : List Char) (hne : cs ≠ [])
    (hdig : ∀ c ∈ cs, c.isDigit = true) :
    parseNumberChars cs = some ((digitsVal cs : ℚ)) := by
  have hemp : cs.isEmpty = false := by
    cases cs with
    | nil => exact absurd rfl hne
    | cons a l => rfl
  have hhead : ∀ c, cs.head? = some c → c.isDigit = true := by
    intro c hc
    cases cs with
    | nil => simp at hc
    | cons a l =>
      simp at hc
      subst hc
      exact hdig _ (by simp)
  have hnotdash : ¬(cs.head? = some '-' || cs.head? = some '+') = true := by
    intro h
    rcases Bool.or_eq_true_iff.mp h with h | h
    · have := hhead '-' (by simpa using of_decide_eq_true h)
      simp at this
    · have := hhead '+' (by simpa using of_decide_eq_true h)
      simp at this
  have hneg : (decide (cs.head? = some '-')) = false := by
    by_contra h
    exact hnotdash (by simp [of_decide_eq_true (Bool.of_not_eq_false h)])
  have htake : cs.takeWhile Char.isDigit = cs := List.takeWhile_eq_self_iff.mpr hdig
  have hdrop : cs.dropWhile Char.isDigit = [] := List.dropWhile_eq_nil_iff.mpr hdig
  unfold parseNumberChars
  rw [hemp]
  dsimp only
  rw [if_neg hnotdash, htake, hdrop]
  dsimp only
  simp only [Bool.false_eq_true, if_false]
  rw [if_neg (fun h => hne (List.isEmpty_iff.mp h)), hneg]
  simp

lemma digitsVal_zero_pad : ∀ (k : Nat) (xs : List Char),
    digitsVal (List.replicate k '0' ++ xs) = digitsVal xs := by
  intro k
  induction k with
  | zero => simp
  | succ k ih =>
    intro xs
    rw [List.replicate_succ, List.cons_append]
    show digitsVal (List.replicate k '0' ++ xs) = digitsVal xs
    exact ih xs

lemma parse_int_toString (y : Int) (hy : 0 ≤ y) :
    parseNumberChars (toString y).data = some ((y : ℚ)) := by
  obtain ⟨m, rfl⟩ : ∃ m : Nat, y = Int.ofNat m :=
    ⟨y.toNat, (Int.toNat_of_nonneg hy).symm⟩
  have hdata : (toString (Int.ofNat m)).data = Nat.toDigits 10 m := rfl
  rw [hdata, parseNumberChars_digits _ (toDigits_ne_nil m) (toDigits_all_digit m),
    digitsVal_toDigits]
  norm_num

lemma padStart2_data (s : String) :
    (padStart2 s).data = List.replicate (2 - s.data.length) '0' ++ s.data := rfl

lemma parse_padded_month (m : Int) (hm : 0 ≤ m) :
    parseNumberChars (padStart2 (toString m)).data = some ((m : ℚ)) := by
  obtain ⟨n, rfl⟩ : ∃ n : Nat, m = Int.ofNat n := ⟨m.toNat, (Int.toNat_of_nonneg hm).symm⟩
  have hdata : (toString (Int.ofNat n)).data = Nat.toDigits 10 n := rfl
  rw [padStart2_data, hdata]
  have hne : List.replicate (2 - (Nat.toDigits 10 n).length) '0' ++
      Nat.toDigits 10 n ≠ [] := by
    intro h
    exact toDigits_ne_nil n (List.append_eq_nil.mp h).2
  have hdig : ∀ c ∈ List.replicate (2 - (Nat.toDigits 10 n).length) '0' ++
      Nat.toDigits 10 n, c.isDigit = true := by
    intro c hc
    rcases List.mem_append.mp hc with hc | hc
    · rw [List.eq_of_mem_replicate hc]
      decide
    · exact toDigits_all_digit n c hc
  rw [parseNumberChars_digits _ hne hdig, digitsVal_zero_pad, digitsVal_toDigits]
  norm_num

lemma dash_not_digit_mem {xs : List Char} (h : ∀ c ∈ xs, c.isDigit = true) :
    '-' ∉ xs := by
  intro hmem
  have := h _ hmem
  simp at this

lemma splitDash_cons_dash (ys : List Char) : splitDash ('-' :: ys) = [] :: splitDash ys := by
  simp [splitDash]

lemma splitDash_ne_nil : ∀ (cs : List Char), splitDash cs ≠ [] := by
  intro cs
  induction cs with
  | nil => simp [splitDash]
  | cons c rest ih =>
    by_cases hc : c = '-'
    · subst hc; simp [splitDash]
    · simp only [splitDash, if_neg hc]
      cases h : splitDash rest with
      | nil => simp
      | cons p ps => simp

lemma splitDash_no_dash : ∀ (ys : List Char), '-' ∉ ys → splitDash ys = [ys] := by
  intro ys
  induction ys with
  | nil => intro _; rfl
  | cons c rest ih =>
    intro h
    have hc : ¬(c = '-') := fun hc => h (hc ▸ List.mem_cons_self c rest)
    have hrest : '-' ∉ rest := fun hr => h (List.mem_cons_of_mem c hr)
    simp only [splitDash, if_neg hc, ih hrest]

lemma splitDash_append (xs ys : List Char) (hxs : '-' ∉ xs) :
    splitDash (xs ++ '-' :: ys) = xs :: splitDash ys := by
  induction xs with
  | nil => simp [splitDash_cons_dash]
  | cons c rest ih =>
    have hc : ¬(c = '-') := fun hc => hxs (hc ▸ List.mem_cons_self c rest)
    have hrest : '-' ∉ rest := fun hr => hxs (List.mem_cons_of_mem c hr)
    rw [List.cons_append]
    simp only [splitDash, if_neg hc, ih hrest]

lemma toMonthKey_data (y m : Int) :
    (toMonthKey y m).data =
      (toString y).data ++ '-' :: (padStart2 (toString m)).data := by
  unfold toMonthKey
  rw [String.data_append, String.data_append]
  simp

lemma toString_nonneg_no_dash (y : Int) (hy : 0 ≤ y) : '-' ∉ (toString y).data := by
  obtain ⟨n, rfl⟩ : ∃ n : Nat, y = Int.ofNat n := ⟨y.toNat, (Int.toNat_of_nonneg hy).symm⟩
  exact dash_not_digit_mem (toDigits_all_digit n)

lemma padStart2_nonneg_no_dash (m : Int) (hm : 0 ≤ m) :
    '-' ∉ (padStart2 (toString m)).data := by
  obtain ⟨n, rfl⟩ : ∃ n : Nat, m = Int.ofNat n := ⟨m.toNat, (Int.toNat_of_nonneg hm).symm⟩
  rw [padStart2_data]
  intro hmem
  rcases List.mem_append.mp hmem with h | h
  · have := List.eq_of_mem_replicate h
    simp at this
  · exact dash_not_digit_mem (toDigits_all_digit n) h

lemma splitDash_toMonthKey (y m : Int) (hy : 0 ≤ y) (hm : 0 ≤ m) :
    splitDash (toMonthKey y m).data =
      [(toString y).data, (padStart2 (toString m)).data] := by
  rw [toMonthKey_data, splitDash_append _ _ (toString_nonneg_no_dash y hy),
    splitDash_no_dash _ (padStart2_nonneg_no_dash m hm)]

/-- `parseMonthKey` reads back exactly what `toMonthKey` wrote, for the
non-negative years and months the pipeline walks. -/
lemma parseMonthKey_toMonthKey (y m : Int) (hy : 0 ≤ y) (hm : 0 ≤ m) :
    parseMonthKey (toMonthKey y m) = (some ((y : ℚ)), some ((m : ℚ))) := by
  unfold parseMonthKey
  rw [splitDash_toMonthKey y m hy hm]
  show (parseNumberChars (toString y).data,
    parseNumberChars (padStart2 (toString m)).data) = _
  rw [parse_int_toString y hy, parse_padded_month m hm]

lemma splitDash_length_ge_two (ys : List Char) (h : '-' ∈ ys) :
    2 ≤ (splitDash ys).length := by
  induction ys with
  | nil => simp at h
  | cons c rest ih =>
    by_cases hc : c = '-'
    · subst hc
      rw [splitDash_cons_dash]
      have hne := splitDash_ne_nil rest
      cases hs : splitDash rest with
      | nil => exact absurd hs hne
      | cons q qs => simp [hs]
    · have hr : '-' ∈ rest := by
        rcases List.mem_cons.mp h with h1 | h1
        · exact absurd h1.symm hc
        · exact h1
      simp only [splitDash, if_neg hc]
      cases hs : splitDash rest with
      | nil => exact absurd hs (splitDash_ne_nil rest)
      | cons q qs =>
        have h2 := ih hr
        rw [hs] at h2
        simpa using h2

/-- `toMonthKey` is injective when one side's year and month are
non-negative (the walked range's always are). -/
lemma toMonthKey_inj (a b y m : Int) (hy : 0 ≤ y) (hm : 0 ≤ m)
    (h : toMonthKey a b = toMonthKey y m) : a = y ∧ b = m := by
  have hdata : (toMonthKey a b).data = (toMonthKey y m).data := by rw [h]
  by_cases hya : 0 ≤ a
  · by_cases hyb : 0 ≤ b
    · have h1 := parseMonthKey_toMonthKey a b hya hyb
      have h2 := parseMonthKey_toMonthKey y m hy hm
      rw [h] at h1
      rw [h1] at h2
      have hfst := congrArg Prod.fst h2
      have hsnd := congrArg Prod.snd h2
      simp only [Option.some.injEq] at hfst hsnd
      exact ⟨by exact_mod_cast hfst, by exact_mod_cast hsnd⟩
    · exfalso
      obtain ⟨k, rfl⟩ : ∃ k, b = Int.negSucc k := by
        cases b with
        | ofNat n => exact absurd (Int.ofNat_nonneg n) hyb
        | negSucc k => exact ⟨k, rfl⟩
      have hdash : '-' ∈ (padStart2 (toString (Int.negSucc k))).data := by
        rw [padStart2_data]
        refine List.mem_append.mpr (Or.inr ?_)
        rw [show toString (Int.negSucc k) = "-" ++ toString (k + 1) from rfl,
          String.data_append]
        exact List.mem_append.mpr (Or.inl (by simp [String.data]))
      have hsplit := congrArg splitDash hdata
      rw [splitDash_toMonthKey y m hy hm, toMonthKey_data,
        splitDash_append _ _ (toString_nonneg_no_dash a hya)] at hsplit
      have hlen := congrArg List.length hsplit
      simp only [List.length_cons, List.length_nil] at hlen
      have h2 := splitDash_length_ge_two _ hdash
      omega
  · exfalso
    obtain ⟨k, rfl⟩ : ∃ k, a = Int.negSucc k := by
      cases a with
      | ofNat n => exact absurd (Int.ofNat_nonneg n) hya
      | negSucc k => exact ⟨k, rfl⟩
    have hadata : (toString (Int.negSucc k)).data = '-' :: (toString (k + 1)).data := by
      rw [show toString (Int.negSucc k) = "-" ++ toString (k + 1) from rfl,
        String.data_append]
      rfl
    have hsplit := congrArg splitDash hdata
    rw [splitDash_toMonthKey y m hy hm, toMonthKey_data, hadata, List.cons_append,
      splitDash_cons_dash] at hsplit
    have hfirst := (List.cons.injEq _ _ _ _).mp hsplit
    obtain ⟨n, rfl⟩ : ∃ n : Nat, y = Int.ofNat n := ⟨y.toNat, (Int.toNat_of_nonneg hy).symm⟩
    exact toDigits_ne_nil n hfirst.1.symm

/-! ## The month walk (C1, C10) -/

lemma listMonths_toMonthKey (ey em : Int) (hey : 0 ≤ ey) (hem : 0 ≤ em) :
    listMonths "2024-01" (toMonthKey ey em) =
      listMonthsGo ey em ((monthIdx ey em - monthIdx 2024 1).toNat + 1) 2024 1 := by
  unfold listMonths
  rw [show ("2024-01" : String) = toMonthKey 2024 1 from by decide]
  rw [parseMonthKey_toMonthKey 2024 1 (by norm_num) (by norm_num),
    parseMonthKey_toMonthKey ey em hey hem]
  dsimp only
  norm_num [Rat.den_intCast, Rat.num_intCast]

lemma monthIdx_le_iff (y m ey em : Int) (hm1 : 1 ≤ m) (hm2 : m ≤ 12)
    (he1 : 1 ≤ em) (he2 : em ≤ 12) :
    (y < ey ∨ (y = ey ∧ m ≤ em)) ↔ monthIdx y m ≤ monthIdx ey em := by
  unfold monthIdx
  omega

lemma listMonthsGo_spec (ey em : Int) (he1 : 1 ≤ em) (he2 : em ≤ 12) :
    ∀ (fuel : Nat) (y m : Int), 1 ≤ m → m ≤ 12 →
      (monthIdx ey em - monthIdx y m + 1).toNat ≤ fuel →
      (listMonthsGo ey em fuel y m).length =
          (monthIdx ey em - monthIdx y m + 1).toNat ∧
        ∀ i p, (listMonthsGo ey em fuel y m).get? i = some p →
          monthIdx p.1 p.2 = monthIdx y m + i ∧ 1 ≤ p.2 ∧ p.2 ≤ 12 := by
  intro fuel
  induction fuel with
  | zero =>
    intro y m h1 h2 hf
    refine ⟨?_, ?_⟩
    · show (0 : Nat) = _
      omega
    · intro i p hp
      simp [listMonthsGo] at hp
  | succ f ih =>
    intro y m h1 h2 hf
    by_cases hcond : y < ey ∨ (y = ey ∧ m ≤ em)
    · have hle : monthIdx y m ≤ monthIdx ey em :=
        (monthIdx_le_iff y m ey em h1 h2 he1 he2).mp hcond
      by_cases hm12 : m = 12
      · subst hm12
        have hgo : listMonthsGo ey em (f + 1) y 12 =
            (y, 12) :: listMonthsGo ey em f (y + 1) 1 := by
          simp [listMonthsGo, hcond]
        have hbound : (monthIdx ey em - monthIdx (y + 1) 1 + 1).toNat ≤ f := by
          unfold monthIdx at *
          omega
        obtain ⟨ihlen, ihget⟩ := ih (y + 1) 1 (by omega) (by omega) hbound
        refine ⟨?_, ?_⟩
        · rw [hgo, List.length_cons, ihlen]
          unfold monthIdx at *
          omega
        · intro i p hp
          rw [hgo] at hp
          cases i with
          | zero =>
            simp at hp
            subst hp
            refine ⟨by simp, by norm_num, by norm_num⟩
          | succ j =>
            rw [List.get?_cons_succ] at hp
            obtain ⟨hidx, hb1, hb2⟩ := ihget j p hp
            refine ⟨?_, hb1, hb2⟩
            unfold monthIdx at *
            omega
      · have hgo : listMonthsGo ey em (f + 1) y m =
            (y, m) :: listMonthsGo ey em f y (m + 1) := by
          simp [listMonthsGo, hcond, hm12]
        have hbound : (monthIdx ey em - monthIdx y (m + 1) + 1).toNat ≤ f := by
          unfold monthIdx at *
          omega
        obtain ⟨ihlen, ihget⟩ := ih y (m + 1) (by omega) (by omega) hbound
        refine ⟨?_, ?_⟩
        · rw [hgo, List.length_cons, ihlen]
          unfold monthIdx at *
          omega
        · intro i p hp
          rw [hgo] at hp
          cases i with
          | zero =>
            simp at hp
            subst hp
            exact ⟨by simp, h1, h2⟩
          | succ j =>
            rw [List.get?_cons_succ] at hp
            obtain ⟨hidx, hb1, hb2⟩ := ihget j p hp
            refine ⟨?_, hb1, hb2⟩
            unfold monthIdx at *
            omega
    · have hnle : ¬(monthIdx y m ≤ monthIdx ey em) :=
        fun hle => hcond ((monthIdx_le_iff y m ey em h1 h2 he1 he2).mpr hle)
      have hgo : listMonthsGo ey em (f + 1) y m = [] := by
        simp [listMonthsGo, hcond]
      refine ⟨?_, ?_⟩
      · rw [hgo]
        show (0 : Nat) = _
        unfold monthIdx at *
        omega
      · intro i p hp
        rw [hgo] at hp
        simp at hp

lemma selectRates_isSome (rates : List TariffRow) (k : String) (h : rates ≠ []) :
    (selectRates rates k).isSome = true := by
  have hsel : selectRates rates k =
      match ((rates.mergeSort rateLe).filter
          (fun rate => strLe rate.effectiveFrom k)).getLast? with
      | some m => some m
      | none => (rates.mergeSort rateLe).head? := rfl
  cases hlast : ((rates.mergeSort rateLe).filter
      (fun rate => strLe rate.effectiveFrom k)).getLast? with
  | some m => rw [hlast] at hsel; rw [hsel]; rfl
  | none =>
    rw [hlast] at hsel
    have hne : rates.mergeSort rateLe ≠ [] := by
      intro hnil
      have hlen : (rates.mergeSort rateLe).length = rates.length :=
        List.length_mergeSort rates
      rw [hnil] at hlen
      cases rates with
      | nil => exact h rfl
      | cons a l => simp at hlen
    cases hs : rates.mergeSort rateLe with
    | nil => exact absurd hs hne
    | cons a l => rw [hsel, hs]; rfl

lemma monthMapGet_key (months : List MonthRecord) (k : String) (rec : MonthRecord)
    (h : monthMapGet months k = some rec) :
    toMonthKey rec.year rec.month = k := by
  unfold monthMapGet at h
  have hmem : rec ∈ months.filter (fun m => toMonthKey m.year m.month = k) :=
    List.mem_of_mem_getLast? (by simp [h])
  exact of_decide_eq_true (List.mem_filter.mp hmem).2

lemma monthStep_locked (ledger : Ledger) (fd : FetchData) (y m : Int)
    (rec : MonthRecord) (hget : monthMapGet ledger.months (toMonthKey y m) = some rec)
    (hlocked : rec.isLocked = true) :
    monthStep ledger fd y m = some rec := by
  unfold monthStep
  dsimp only
  rw [hget]
  dsimp only
  rw [hlocked]
  rfl

lemma monthBuild_isSome (ledger : Ledger) (fd : FetchData) (y m : Int)
    (ex : Option MonthRecord) (hrates : ledger.rates ≠ []) :
    (monthBuild ledger fd y m ex).isSome = true := by
  unfold monthBuild
  cases hsel : selectRates ledger.rates (toMonthKey y m) with
  | none =>
    have := selectRates_isSome ledger.rates (toMonthKey y m) hrates
    rw [hsel] at this
    simp at this
  | some r => rfl

lemma monthBuild_fields (ledger : Ledger) (fd : FetchData) (y m : Int)
    (ex : Option MonthRecord) (r : MonthRecord)
    (h : monthBuild ledger fd y m ex = some r) : r.year = y ∧ r.month = m := by
  unfold monthBuild at h
  cases hsel : selectRates ledger.rates (toMonthKey y m) with
  | none => rw [hsel] at h; simp at h
  | some rates' =>
    rw [hsel] at h
    simp only [Option.some.injEq] at h
    subst h
    exact ⟨rfl, rfl⟩

lemma monthStep_isSome (ledger : Ledger) (fd : FetchData) (y m : Int)
    (hrates : ledger.rates ≠ []) :
    (monthStep ledger fd y m).isSome = true := by
  unfold monthStep
  dsimp only
  cases hget : monthMapGet ledger.months (toMonthKey y m) with
  | some ex =>
    show (if ex.isLocked = true then some ex
      else monthBuild ledger fd y m (some ex)).isSome = true
    by_cases hl : ex.isLocked
    · rw [hl]; rfl
    · rw [Bool.not_eq_true] at hl
      rw [hl]
      simpa using monthBuild_isSome ledger fd y m (some ex) hrates
  | none =>
    show (monthBuild ledger fd y m none).isSome = true
    exact monthBuild_isSome ledger fd y m none hrates

lemma monthStep_fields (ledger : Ledger) (fd : FetchData) (y m : Int)
    (r : MonthRecord) (hy : 0 ≤ y) (hm : 0 ≤ m)
    (h : monthStep ledger fd y m = some r) :
    r.year = y ∧ r.month = m := by
  unfold monthStep at h
  dsimp only at h
  cases hget : monthMapGet ledger.months (toMonthKey y m) with
  | some ex =>
    rw [hget] at h
    have h' : (if ex.isLocked = true then some ex
        else monthBuild ledger fd y m (some ex)) = some r := h
    by_cases hl : ex.isLocked
    · rw [hl] at h'
      have hexr : ex = r := by simpa using h'
      rw [← hexr]
      have hkey := monthMapGet_key ledger.months (toMonthKey y m) ex hget
      exact toMonthKey_inj ex.year ex.month y m hy hm hkey
    · rw [Bool.not_eq_true] at hl
      rw [hl] at h'
      simp only [Bool.false_eq_true, if_false] at h'
      exact monthBuild_fields ledger fd y m (some ex) r h'
  | none =>
    rw [hget] at h
    have h' : monthBuild ledger fd y m none = some r := h
    exact monthBuild_fields ledger fd y m none r h'

lemma mergeMonths_isSome (ledger : Ledger) (fd : FetchData) :
    ∀ (ms : List (Int × Int)),
      (∀ ym ∈ ms, (monthStep ledger fd ym.1 ym.2).isSome = true) →
      (mergeMonths ledger fd ms).isSome = true := by
  intro ms
  induction ms with
  | nil => intro _; rfl
  | cons ym rest ih =>
    intro hall
    have h1 := hall ym (by simp)
    obtain ⟨r, hr⟩ := Option.isSome_iff_exists.mp h1
    have h2 := ih (fun q hq => hall q (by simp [hq]))
    obtain ⟨rs, hrs⟩ := Option.isSome_iff_exists.mp h2
    unfold mergeMonths
    rw [hr, hrs]
    rfl

lemma mergeMonths_spec (ledger : Ledger) (fd : FetchData) :
    ∀ (ms : List (Int × Int)) (l : List MonthRecord),
      mergeMonths ledger fd ms = some l →
      l.length = ms.length ∧
        ∀ i ym, ms.get? i = some ym →
          l.get? i = monthStep ledger fd ym.1 ym.2 := by
  intro ms
  induction ms with
  | nil =>
    intro l h
    cases h
    exact ⟨rfl, by intro i ym h; simp at h⟩
  | cons ym rest ih =>
    intro l h
    unfold mergeMonths at h
    cases hstep : monthStep ledger fd ym.1 ym.2 with
    | none => rw [hstep] at h; simp at h
    | some r =>
      rw [hstep] at h
      cases hrest : mergeMonths ledger fd rest with
      | none => rw [hrest] at h; simp at h
      | some rs =>
        rw [hrest] at h
        simp only [Option.some.injEq] at h
        subst h
        obtain ⟨ihlen, ihget⟩ := ih rs hrest
        refine ⟨by simp [ihlen], ?_⟩
        intro i q hq
        cases i with
        | zero =>
          simp at hq
          subst hq
          simp [hstep]
        | succ j =>
          rw [List.get?_cons_succ] at hq ⊢
          exact ihget j q hq

/-- C1 — on a run whose fetch phase succeeded, every walked month whose prior
record exists and is locked gets exactly that prior record, unchanged in
every field, at its position of the output ledger — whatever tariff or usage
data was fetched. -/
theorem C1_locked_record_carried_forward (ledger : Ledger) (env : FetchEnv)
    (now : NowDate) (nowIso : String)
    (hrates : ledger.rates ≠ [])
    (hfetch : ∃ fd, fetchPhase ledger.identities env = .ok fd)
    (i : Nat) (ym : Int × Int) (rec : MonthRecord)
    (hym : (listMonths "2024-01" (toMonthKey (getLastClosedMonth now).year
        (getLastClosedMonth now).month)).get? i = some ym)
    (hrec : monthMapGet ledger.months (toMonthKey ym.1 ym.2) = some rec)
    (hlocked : rec.isLocked = true) :
    ∃ out, runMain ledger env now nowIso = some out ∧
      out.months.get? i = some rec := by
  obtain ⟨fd, hfd⟩ := hfetch
  have hall : ∀ q ∈ listMonths "2024-01" (toMonthKey (getLastClosedMonth now).year
      (getLastClosedMonth now).month), (monthStep ledger fd q.1 q.2).isSome = true :=
    fun q _ => monthStep_isSome ledger fd q.1 q.2 hrates
  obtain ⟨updated, hupd⟩ := Option.isSome_iff_exists.mp
    (mergeMonths_isSome ledger fd _ hall)
  have hrun : runMain ledger env now nowIso =
      some { ledger with months := updated, meta := ⟨nowIso, "OK", none⟩ } := by
    unfold runMain
    dsimp only
    rw [hfd]
    dsimp only
    rw [hupd]
  refine ⟨_, hrun, ?_⟩
  obtain ⟨hlen, hget⟩ := mergeMonths_spec ledger fd _ updated hupd
  show updated.get? i = some rec
  rw [hget i ym hym, monthStep_locked ledger fd ym.1 ym.2 rec hrec hlocked]

/-- Witness for C1 at a concrete run: prior ledger with 2024-01 locked,
current date 2024-03, all fetches succeeding. -/
theorem C1_locked_record_carried_forward_witness :
    ∃ out, runMain c1Ledger wOkEnv ⟨2024, 3⟩ "2024-03-01T00:00:00.000Z" = some out ∧
      out.months.get? 0 = some c1LockedRec :=
  C1_locked_record_carried_forward c1Ledger wOkEnv ⟨2024, 3⟩ "2024-03-01T00:00:00.000Z"
    (by simp [c1Ledger]) ⟨_, rfl⟩ 0 (2024, 1) c1LockedRec (by decide) rfl rfl

/-- C10 — on a run whose fetch phase succeeded, the output months are exactly
one record per calendar month from 2024-01 through the last fully elapsed
month (the month before `now`, rolling to December of the prior year in
January), ascending (the i-th record's month index is the start index plus
i); any prior record for a month outside this range — locked or not — is
absent from the output. -/
theorem C10_walked_range (ledger : Ledger) (env : FetchEnv)
    (now : NowDate) (nowIso : String)
    (hrates : ledger.rates ≠ [])
    (hfetch : ∃ fd, fetchPhase ledger.identities env = .ok fd)
    (hy : 1 ≤ now.year) (hm1 : 1 ≤ now.month) (hm2 : now.month ≤ 12) :
    ∃ out, runMain ledger env now nowIso = some out ∧
      out.months.length = (monthIdx (getLastClosedMonth now).year
        (getLastClosedMonth now).month - monthIdx 2024 1 + 1).toNat ∧
      (∀ i r, out.months.get? i = some r →
        monthIdx r.year r.month = monthIdx 2024 1 + i ∧ 1 ≤ r.month ∧ r.month ≤ 12) ∧
      (∀ p ∈ ledger.months,
        (monthIdx p.year p.month < monthIdx 2024 1 ∨
          monthIdx (getLastClosedMonth now).year (getLastClosedMonth now).month <
            monthIdx p.year p.month) → p ∉ out.months) := by
  obtain ⟨fd, hfd⟩ := hfetch
  have hem1 : 1 ≤ (getLastClosedMonth now).month := by
    unfold getLastClosedMonth
    split <;> dsimp <;> omega
  have hem2 : (getLastClosedMonth now).month ≤ 12 := by
    unfold getLastClosedMonth
    split <;> dsimp <;> omega
  have hey : 0 ≤ (getLastClosedMonth now).year := by
    unfold getLastClosedMonth
    split <;> dsimp <;> omega
  have hml := listMonths_toMonthKey (getLastClosedMonth now).year
    (getLastClosedMonth now).month hey (by omega)
  obtain ⟨glen, gget⟩ := listMonthsGo_spec (getLastClosedMonth now).year
    (getLastClosedMonth now).month hem1 hem2
    ((monthIdx (getLastClosedMonth now).year (getLastClosedMonth now).month -
      monthIdx 2024 1).toNat + 1) 2024 1 (by norm_num) (by norm_num) (by omega)
  have hall : ∀ q ∈ listMonths "2024-01" (toMonthKey (getLastClosedMonth now).year
      (getLastClosedMonth now).month), (monthStep ledger fd q.1 q.2).isSome = true :=
    fun q _ => monthStep_isSome ledger fd q.1 q.2 hrates
  obtain ⟨updated, hupd⟩ := Option.isSome_iff_exists.mp
    (mergeMonths_isSome ledger fd _ hall)
  have hrun : runMain ledger env now nowIso =
      some { ledger with months := updated, meta := ⟨nowIso, "OK", none⟩ } := by
    unfold runMain
    dsimp only
    rw [hfd]
    dsimp only
    rw [hupd]
  obtain ⟨mlen, mget⟩ := mergeMonths_spec ledger fd _ updated hupd
  rw [hml] at mlen mget
  have houtlen : updated.length = (monthIdx (getLastClosedMonth now).year
      (getLastClosedMonth now).month - monthIdx 2024 1 + 1).toNat := by
    rw [mlen, glen]
  have hrecord : ∀ i r, updated.get? i = some r →
      monthIdx r.year r.month = monthIdx 2024 1 + i ∧ 1 ≤ r.month ∧ r.month ≤ 12 := by
    intro i r hr
    have hlt : i < updated.length := by
      by_contra hge
      rw [List.get?_eq_none.mpr (by omega)] at hr
      exact absurd hr (by simp)
    have hltml : i < (listMonthsGo (getLastClosedMonth now).year
        (getLastClosedMonth now).month ((monthIdx (getLastClosedMonth now).year
          (getLastClosedMonth now).month - monthIdx 2024 1).toNat + 1) 2024 1).length := by
      rw [mlen] at hlt
      exact hlt
    obtain ⟨ym, hym⟩ : ∃ ym, (listMonthsGo (getLastClosedMonth now).year
        (getLastClosedMonth now).month ((monthIdx (getLastClosedMonth now).year
          (getLastClosedMonth now).month - monthIdx 2024 1).toNat + 1) 2024 1).get? i =
        some ym := by
      cases hq : (listMonthsGo (getLastClosedMonth now).year
          (getLastClosedMonth now).month ((monthIdx (getLastClosedMonth now).year
            (getLastClosedMonth now).month - monthIdx 2024 1).toNat + 1) 2024 1).get? i with
      | none =>
        rw [List.get?_eq_none] at hq
        omega
      | some q => exact ⟨q, rfl⟩
    have hmge := mget i ym hym
    rw [hr] at hmge
    obtain ⟨hidx, hb1, hb2⟩ := gget i ym hym
    have hy1 : 0 ≤ ym.1 := by
      unfold monthIdx at hidx
      omega
    obtain ⟨hyr, hmr⟩ := monthStep_fields ledger fd ym.1 ym.2 r hy1 (by omega) hmge.symm
    rw [hyr, hmr]
    exact ⟨hidx, hb1, hb2⟩
  refine ⟨_, hrun, houtlen, hrecord, ?_⟩
  intro p hp hout hmem
  show False
  have hmem' : p ∈ updated := hmem
  obtain ⟨j, hj⟩ := List.mem_iff_get?.mp hmem' 
  obtain ⟨hidx, _, _⟩ := hrecord j p hj
  have hjlt : j < updated.length := by
    by_contra hge
    rw [List.get?_eq_none.mpr (by omega)] at hj
    exact absurd hj (by simp)
  rw [houtlen] at hjlt
  unfold monthIdx at *
  omega

/-- Witness for C10 at a concrete run dated 2025-02 (walking 2024-01 through
2025-01). -/
theorem C10_walked_range_witness :
    ∃ out, runMain c10Ledger wOkEnv ⟨2025, 2⟩ "2025-02-01T00:00:00.000Z" = some out ∧
      out.months.length = (monthIdx (getLastClosedMonth ⟨2025, 2⟩).year
        (getLastClosedMonth ⟨2025, 2⟩).month - monthIdx 2024 1 + 1).toNat ∧
      (∀ i r, out.months.get? i = some r →
        monthIdx r.year r.month = monthIdx 2024 1 + i ∧ 1 ≤ r.month ∧ r.month ≤ 12) ∧
      (∀ p ∈ c10Ledger.months,
        (monthIdx p.year p.month < monthIdx 2024 1 ∨
          monthIdx (getLastClosedMonth ⟨2025, 2⟩).year
            (getLastClosedMonth ⟨2025, 2⟩).month < monthIdx p.year p.month) →
          p ∉ out.months) :=
  C10_walked_range c10Ledger wOkEnv ⟨2025, 2⟩ "2025-02-01T00:00:00.000Z"
    (by simp [c10Ledger]) ⟨_, rfl⟩ (by decide) (by decide) (by decide)
